import Mathlib

/-!
# CareerManifest scoring pipeline — shallow embedding

Shallow embedding of the core scoring pipeline of the CareerManifest
repository (Go sources under `backend/internal/engine/`):

* `profile.go`    — the 9-feature `UserProfile`
* `aggregator.go` — `questionFeatureMap` and `AggregateProfile`
* `career.go`     — the `Career` enum (`NumCareers = 6` in the version of
  `career.go` present in the repository; the weight matrix and the risk
  rules additionally reference the extended careers DataScience = 6,
  Creative = 7, Healthcare = 8)
* `matrix.go`     — `CareerWeightMatrix`, `GetCareerWeights`
* `risk.go`       — `ComputeRisk`, `riskPenaltyRules`, `ApplyRiskPenalties`,
  `NormalizeAndRank`
* `explain.go`    — `GenerateExplanation`

`float64` arithmetic is modelled by exact rationals `ℚ`; Go's `math.Round`
(round half away from zero) is modelled by `goRound`.  Go's `sort.Slice`
runs a stable insertion sort for slices shorter than 12 elements, which
covers every career-score and contribution list the pipeline ever sorts
(at most 9 entries); it is modelled by `List.insertionSort`, which
performs the same stable insertion.
-/

namespace CareerManifest

/-- Go's `math.Round`: round to the nearest integer, halves away from zero. -/
def goRound (q : ℚ) : ℚ :=
  if 0 ≤ q then ((⌊q + 1/2⌋ : ℤ) : ℚ) else ((-⌊-q + 1/2⌋ : ℤ) : ℚ)

/-- `math.Round(x*100)/100`: round to 2 decimal places. -/
def round2 (q : ℚ) : ℚ := goRound (q * 100) / 100

/-- `math.Round(x*1000)/1000`: round to 3 decimal places. -/
def round3 (q : ℚ) : ℚ := goRound (q * 1000) / 1000

theorem goRound_intCast (n : ℤ) : goRound (n : ℚ) = n := by
  have h1 : ⌊(n : ℚ) + 1/2⌋ = n := by
    rw [Int.floor_int_add]
    norm_num
  have h2 : ⌊-(n : ℚ) + 1/2⌋ = -n := by
    rw [show -(n : ℚ) + 1/2 = ((-n : ℤ) : ℚ) + 1/2 by push_cast; ring, Int.floor_int_add]
    norm_num
  unfold goRound
  by_cases h : (0 : ℚ) ≤ (n : ℚ)
  · rw [if_pos h, h1]
  · rw [if_neg h, h2]
    push_cast
    ring

theorem goRound_mono {a b : ℚ} (h : a ≤ b) : goRound a ≤ goRound b := by
  unfold goRound
  by_cases ha : 0 ≤ a
  · have hb : 0 ≤ b := le_trans ha h
    simp only [ha, hb, if_true]
    exact_mod_cast Int.floor_le_floor (by linarith)
  · by_cases hb : 0 ≤ b
    · rw [if_neg ha, if_pos hb]
      have h1 : (0 : ℤ) ≤ ⌊-a + 1/2⌋ := by
        apply Int.floor_nonneg.2
        push_neg at ha
        linarith
      have h2 : (0 : ℤ) ≤ ⌊b + 1/2⌋ := by
        apply Int.floor_nonneg.2
        linarith
      exact_mod_cast (by omega : (-⌊-a + 1/2⌋ : ℤ) ≤ ⌊b + 1/2⌋)
    · rw [if_neg ha, if_neg hb]
      have h3 : ⌊-b + 1/2⌋ ≤ ⌊-a + 1/2⌋ := Int.floor_le_floor (by linarith)
      exact_mod_cast (by omega : (-⌊-a + 1/2⌋ : ℤ) ≤ -⌊-b + 1/2⌋)

theorem goRound_nonneg {q : ℚ} (h : 0 ≤ q) : 0 ≤ goRound q := by
  have := goRound_mono h
  rwa [show goRound 0 = 0 from by exact_mod_cast goRound_intCast 0] at this

theorem goRound_exists_int (q : ℚ) : ∃ n : ℤ, goRound q = n := by
  unfold goRound
  by_cases h : 0 ≤ q
  · exact ⟨⌊q + 1/2⌋, by simp [h]⟩
  · exact ⟨-⌊-q + 1/2⌋, by simp [h]⟩

theorem round3_mono {a b : ℚ} (h : a ≤ b) : round3 a ≤ round3 b := by
  unfold round3
  have := goRound_mono (show a * 1000 ≤ b * 1000 by linarith)
  linarith

theorem round2_mono {a b : ℚ} (h : a ≤ b) : round2 a ≤ round2 b := by
  unfold round2
  have := goRound_mono (show a * 100 ≤ b * 100 by linarith)
  linarith

/-- `round3` is the identity on rationals with denominator dividing 1000. -/
theorem round3_int_div (k : ℤ) : round3 ((k : ℚ) / 1000) = (k : ℚ) / 1000 := by
  unfold round3
  rw [show ((k : ℚ) / 1000) * 1000 = (k : ℚ) by ring, goRound_intCast]

theorem round3_exists_int (q : ℚ) : ∃ k : ℤ, round3 q = (k : ℚ) / 1000 := by
  obtain ⟨n, hn⟩ := goRound_exists_int (q * 1000)
  exact ⟨n, by rw [round3, hn]⟩

theorem round3_idem (q : ℚ) : round3 (round3 q) = round3 q := by
  obtain ⟨k, hk⟩ := round3_exists_int q
  rw [hk, round3_int_div]

theorem round3_zero : round3 0 = 0 := by
  unfold round3
  rw [show (0 : ℚ) * 1000 = ((0 : ℤ) : ℚ) by norm_num, goRound_intCast]
  norm_num

theorem round3_one : round3 1 = 1 := by
  unfold round3
  rw [show (1 : ℚ) * 1000 = ((1000 : ℤ) : ℚ) by norm_num, goRound_intCast]
  norm_num

theorem round3_nonneg {q : ℚ} (h : 0 ≤ q) : 0 ≤ round3 q := by
  have := round3_mono h
  rwa [round3_zero] at this

theorem round3_le_one {q : ℚ} (h : q ≤ 1) : round3 q ≤ 1 := by
  have := round3_mono h
  rwa [round3_one] at this

theorem round2_intCast (n : ℤ) : round2 (n : ℚ) = n := by
  unfold round2
  rw [show (n : ℚ) * 100 = ((n * 100 : ℤ) : ℚ) by push_cast; ring, goRound_intCast]
  push_cast
  ring

theorem round2_nonneg {q : ℚ} (h : 0 ≤ q) : 0 ≤ round2 q := by
  have := round2_mono h
  rwa [show round2 0 = 0 from by exact_mod_cast round2_intCast 0] at this

/- ──────────────────────────────────────────────────────────────────
   profile.go — the 9-feature user profile
   ────────────────────────────────────────────────────────────────── -/

/-- `NumFeatures` from `profile.go`. -/
def NumFeatures : ℕ := 9

/-- Feature indices from `profile.go`. -/
def FeatAcademicStrength : Fin 9 := 0
def FeatFinancialPressure : Fin 9 := 1
def FeatRiskTolerance : Fin 9 := 2
def FeatLeadershipScore : Fin 9 := 3
def FeatTechAffinity : Fin 9 := 4
def FeatGovtInterest : Fin 9 := 5
def FeatAbroadInterest : Fin 9 := 6
def FeatIncomeUrgency : Fin 9 := 7
def FeatCareerInstability : Fin 9 := 8

/-- `FeatureNames` from `profile.go`. -/
def FeatureNames : Fin 9 → String :=
  ![ "Academic Strength", "Financial Pressure", "Risk Tolerance", "Leadership",
     "Tech Affinity", "Govt Interest", "Abroad Interest", "Income Urgency",
     "Career Instability"]

/-- `UserProfile` from `profile.go`: a 9-element feature vector. -/
structure UserProfile where
  Features : Fin 9 → ℚ

instance : DecidableEq UserProfile := fun p q =>
  decidable_of_iff (p.Features = q.Features) (by cases p; cases q; simp)

/-- Accessor methods from `profile.go`. -/
def UserProfile.academicStrength (p : UserProfile) : ℚ := p.Features FeatAcademicStrength
def UserProfile.financialPressure (p : UserProfile) : ℚ := p.Features FeatFinancialPressure
def UserProfile.riskTolerance (p : UserProfile) : ℚ := p.Features FeatRiskTolerance
def UserProfile.leadershipScore (p : UserProfile) : ℚ := p.Features FeatLeadershipScore
def UserProfile.techAffinity (p : UserProfile) : ℚ := p.Features FeatTechAffinity
def UserProfile.govtInterest (p : UserProfile) : ℚ := p.Features FeatGovtInterest
def UserProfile.abroadInterest (p : UserProfile) : ℚ := p.Features FeatAbroadInterest
def UserProfile.incomeUrgency (p : UserProfile) : ℚ := p.Features FeatIncomeUrgency
def UserProfile.careerInstability (p : UserProfile) : ℚ := p.Features FeatCareerInstability

/- ──────────────────────────────────────────────────────────────────
   risk.go, part A — ComputeRisk
   ────────────────────────────────────────────────────────────────── -/

/-- `RiskResult` from `risk.go`.  The Go `map[string]float64` literal for
`Factors` is built with four distinct keys; it is modelled by the
association list in insertion order. -/
structure RiskResult where
  Score : ℚ
  Level : String
  Factors : List (String × ℚ)
deriving DecidableEq

/-- `ComputeRisk` from `risk.go`. -/
def computeRisk (profile : UserProfile) : RiskResult :=
  let incomeUrgency := profile.incomeUrgency * 10
  let financialPressure := profile.financialPressure * 10
  let riskTolerance := profile.riskTolerance * 10
  let careerInstability := profile.careerInstability * 10
  let riskScore0 := incomeUrgency * 0.35 + financialPressure * 0.25 +
    riskTolerance * 0.20 + careerInstability * 0.20
  let riskScore := goRound (riskScore0 * 100) / 100
  let level := if riskScore > 6 then "High" else if riskScore > 3 then "Medium" else "Low"
  { Score := riskScore
    Level := level
    Factors :=
      [ ("income_urgency", goRound (incomeUrgency * 100) / 100),
        ("financial_pressure", goRound (financialPressure * 100) / 100),
        ("risk_tolerance", goRound (riskTolerance * 100) / 100),
        ("career_instability", goRound (careerInstability * 100) / 100) ] }

/- ──────────────────────────────────────────────────────────────────
   aggregator.go — questionFeatureMap and AggregateProfile
   ────────────────────────────────────────────────────────────────── -/

/-- `dto.AnswerItem`: `QuestionID uint64`, `Selected int`. -/
structure AnswerItem where
  QuestionID : ℕ
  Selected : Int
deriving DecidableEq

/-- `QuestionData` from `scoring.go` (the `Weights` field is consumed only by
the legacy string-based engine, not by the vector pipeline, and is omitted). -/
structure QuestionData where
  ID : ℕ
  Category : String := ""
  DisplayOrder : Int
deriving DecidableEq

/-- `questionFeatureMap` from `aggregator.go`: for each question DisplayOrder
(1–30) and selected option index, the list of `(FeatureIndex, Weight)`
contributions.  A Go map lookup that misses returns no mappings; that is
modelled by the `[]` default (an empty mapping list and an absent key are
indistinguishable to the aggregation loop). -/
def questionFeatureMap : Int → Int → List (Fin 9 × ℚ)
  | 1, 0 => [(FeatAcademicStrength, 0.10)]
  | 1, 1 => [(FeatAcademicStrength, 0.30)]
  | 1, 2 => [(FeatAcademicStrength, 0.55)]
  | 1, 3 => [(FeatAcademicStrength, 0.80), (FeatAbroadInterest, 0.15)]
  | 1, 4 => [(FeatAcademicStrength, 1.00), (FeatAbroadInterest, 0.25)]
  | 2, 0 => [(FeatTechAffinity, 0.90), (FeatAcademicStrength, 0.70), (FeatAbroadInterest, 0.30)]
  | 2, 1 => [(FeatTechAffinity, 0.30), (FeatAcademicStrength, 0.60), (FeatAbroadInterest, 0.20)]
  | 2, 2 => [(FeatTechAffinity, 0.20), (FeatAcademicStrength, 0.50), (FeatLeadershipScore, 0.40)]
  | 2, 3 => [(FeatTechAffinity, 0.10), (FeatAcademicStrength, 0.35), (FeatLeadershipScore, 0.30)]
  | 2, 4 => [(FeatTechAffinity, 0.05), (FeatAcademicStrength, 0.30), (FeatGovtInterest, 0.40)]
  | 3, 0 => [(FeatTechAffinity, 1.00), (FeatAcademicStrength, 0.70), (FeatAbroadInterest, 0.35)]
  | 3, 1 => [(FeatTechAffinity, 0.50), (FeatAcademicStrength, 0.65), (FeatAbroadInterest, 0.25)]
  | 3, 2 => [(FeatTechAffinity, 0.10), (FeatLeadershipScore, 0.50), (FeatAcademicStrength, 0.45)]
  | 3, 3 => [(FeatTechAffinity, 0.20), (FeatAcademicStrength, 0.55), (FeatAbroadInterest, 0.15)]
  | 3, 4 => [(FeatTechAffinity, 0.05), (FeatAcademicStrength, 0.30), (FeatGovtInterest, 0.35)]
  | 4, 0 => [(FeatAcademicStrength, 0.15)]
  | 4, 1 => [(FeatAcademicStrength, 0.35)]
  | 4, 2 => [(FeatAcademicStrength, 0.55)]
  | 4, 3 => [(FeatAcademicStrength, 0.80), (FeatAbroadInterest, 0.15)]
  | 4, 4 => [(FeatAcademicStrength, 1.00), (FeatAbroadInterest, 0.25)]
  | 5, 0 => [(FeatAcademicStrength, 0.20)]
  | 5, 1 => [(FeatAcademicStrength, 0.65), (FeatTechAffinity, 0.50)]
  | 5, 2 => [(FeatAcademicStrength, 0.60), (FeatLeadershipScore, 0.60)]
  | 5, 3 => [(FeatAcademicStrength, 0.75), (FeatTechAffinity, 0.40), (FeatAbroadInterest, 0.20)]
  | 5, 4 => [(FeatAcademicStrength, 0.55), (FeatGovtInterest, 0.90)]
  | 6, 0 => [(FeatTechAffinity, 0.00)]
  | 6, 1 => [(FeatTechAffinity, 0.25)]
  | 6, 2 => [(FeatTechAffinity, 0.55), (FeatCareerInstability, 0.10)]
  | 6, 3 => [(FeatTechAffinity, 0.80), (FeatCareerInstability, 0.15)]
  | 6, 4 => [(FeatTechAffinity, 1.00), (FeatCareerInstability, 0.20), (FeatAbroadInterest, 0.15)]
  | 7, 0 => [(FeatAcademicStrength, 0.20), (FeatAbroadInterest, 0.05)]
  | 7, 1 => [(FeatAcademicStrength, 0.40), (FeatAbroadInterest, 0.20)]
  | 7, 2 => [(FeatAcademicStrength, 0.70), (FeatAbroadInterest, 0.60)]
  | 7, 3 => [(FeatAcademicStrength, 0.85), (FeatAbroadInterest, 0.85)]
  | 8, 0 => [(FeatAcademicStrength, 0.20), (FeatLeadershipScore, 0.10)]
  | 8, 1 => [(FeatAcademicStrength, 0.50), (FeatLeadershipScore, 0.30), (FeatTechAffinity, 0.20)]
  | 8, 2 => [(FeatAcademicStrength, 0.55), (FeatLeadershipScore, 0.60), (FeatTechAffinity, 0.30)]
  | 8, 3 => [(FeatAcademicStrength, 0.50), (FeatLeadershipScore, 0.85), (FeatTechAffinity, 0.35)]
  | 9, 0 => [(FeatFinancialPressure, 0.10), (FeatIncomeUrgency, 0.10)]
  | 9, 1 => [(FeatFinancialPressure, 0.35), (FeatIncomeUrgency, 0.30)]
  | 9, 2 => [(FeatFinancialPressure, 0.65), (FeatIncomeUrgency, 0.60), (FeatGovtInterest, 0.15)]
  | 9, 3 => [(FeatFinancialPressure, 0.90), (FeatIncomeUrgency, 0.85), (FeatGovtInterest, 0.25)]
  | 10, 0 => [(FeatFinancialPressure, 0.05), (FeatIncomeUrgency, 0.05)]
  | 10, 1 => [(FeatFinancialPressure, 0.30), (FeatIncomeUrgency, 0.25)]
  | 10, 2 => [(FeatFinancialPressure, 0.65), (FeatIncomeUrgency, 0.60), (FeatGovtInterest, 0.20)]
  | 10, 3 => [(FeatFinancialPressure, 0.95), (FeatIncomeUrgency, 0.90), (FeatGovtInterest, 0.30)]
  | 11, 0 => [(FeatIncomeUrgency, 0.05), (FeatAbroadInterest, 0.20)]
  | 11, 1 => [(FeatIncomeUrgency, 0.30)]
  | 11, 2 => [(FeatIncomeUrgency, 0.70), (FeatGovtInterest, 0.15)]
  | 11, 3 => [(FeatIncomeUrgency, 1.00), (FeatGovtInterest, 0.20)]
  | 12, 0 => [(FeatFinancialPressure, 0.05)]
  | 12, 1 => [(FeatFinancialPressure, 0.30)]
  | 12, 2 => [(FeatFinancialPressure, 0.55)]
  | 12, 3 => [(FeatFinancialPressure, 0.85)]
  | 13, 0 => [(FeatFinancialPressure, 0.90), (FeatIncomeUrgency, 0.80), (FeatGovtInterest, 0.25)]
  | 13, 1 => [(FeatFinancialPressure, 0.60), (FeatIncomeUrgency, 0.55), (FeatGovtInterest, 0.15)]
  | 13, 2 => [(FeatFinancialPressure, 0.30), (FeatIncomeUrgency, 0.25)]
  | 13, 3 => [(FeatFinancialPressure, 0.10), (FeatIncomeUrgency, 0.10), (FeatAbroadInterest, 0.15)]
  | 13, 4 => [(FeatFinancialPressure, 0.02), (FeatIncomeUrgency, 0.02), (FeatAbroadInterest, 0.25)]
  | 14, 0 => [(FeatFinancialPressure, 0.40), (FeatAbroadInterest, 0.05), (FeatGovtInterest, 0.20)]
  | 14, 1 => [(FeatFinancialPressure, 0.25), (FeatAbroadInterest, 0.15), (FeatGovtInterest, 0.10)]
  | 14, 2 => [(FeatFinancialPressure, 0.10), (FeatAbroadInterest, 0.35), (FeatTechAffinity, 0.20)]
  | 14, 3 => [(FeatFinancialPressure, 0.05), (FeatAbroadInterest, 0.55), (FeatLeadershipScore, 0.30), (FeatTechAffinity, 0.30)]
  | 15, 0 => [(FeatRiskTolerance, 0.05), (FeatGovtInterest, 0.55)]
  | 15, 1 => [(FeatRiskTolerance, 0.20), (FeatGovtInterest, 0.35)]
  | 15, 2 => [(FeatRiskTolerance, 0.50)]
  | 15, 3 => [(FeatRiskTolerance, 0.75), (FeatCareerInstability, 0.20)]
  | 15, 4 => [(FeatRiskTolerance, 1.00), (FeatCareerInstability, 0.35)]
  | 16, 0 => [(FeatLeadershipScore, 0.10)]
  | 16, 1 => [(FeatLeadershipScore, 0.35)]
  | 16, 2 => [(FeatLeadershipScore, 0.70), (FeatCareerInstability, 0.15)]
  | 16, 3 => [(FeatLeadershipScore, 1.00), (FeatCareerInstability, 0.25)]
  | 17, 0 => [(FeatRiskTolerance, 0.05), (FeatCareerInstability, 0.05), (FeatGovtInterest, 0.60)]
  | 17, 1 => [(FeatRiskTolerance, 0.25), (FeatCareerInstability, 0.25), (FeatGovtInterest, 0.25)]
  | 17, 2 => [(FeatRiskTolerance, 0.55), (FeatCareerInstability, 0.50), (FeatAbroadInterest, 0.15)]
  | 17, 3 => [(FeatRiskTolerance, 0.85), (FeatCareerInstability, 0.80), (FeatAbroadInterest, 0.20)]
  | 18, 0 => [(FeatRiskTolerance, 0.10), (FeatLeadershipScore, 0.05)]
  | 18, 1 => [(FeatRiskTolerance, 0.25), (FeatLeadershipScore, 0.20)]
  | 18, 2 => [(FeatRiskTolerance, 0.55), (FeatLeadershipScore, 0.50)]
  | 18, 3 => [(FeatRiskTolerance, 0.80), (FeatLeadershipScore, 0.70), (FeatCareerInstability, 0.20)]
  | 19, 0 => [(FeatGovtInterest, 0.50), (FeatRiskTolerance, 0.05)]
  | 19, 1 => [(FeatRiskTolerance, 0.25), (FeatGovtInterest, 0.20)]
  | 19, 2 => [(FeatRiskTolerance, 0.55), (FeatLeadershipScore, 0.35)]
  | 19, 3 => [(FeatRiskTolerance, 0.80), (FeatLeadershipScore, 0.50), (FeatCareerInstability, 0.30)]
  | 20, 0 => [(FeatGovtInterest, 0.40), (FeatTechAffinity, 0.05)]
  | 20, 1 => [(FeatTechAffinity, 0.30)]
  | 20, 2 => [(FeatTechAffinity, 0.65), (FeatAcademicStrength, 0.30), (FeatAbroadInterest, 0.15)]
  | 20, 3 => [(FeatTechAffinity, 0.85), (FeatAcademicStrength, 0.40), (FeatAbroadInterest, 0.25)]
  | 21, 0 => [(FeatGovtInterest, 0.30)]
  | 21, 1 => [(FeatAcademicStrength, 0.20)]
  | 21, 2 => [(FeatAcademicStrength, 0.45), (FeatTechAffinity, 0.30)]
  | 21, 3 => [(FeatAcademicStrength, 0.65), (FeatTechAffinity, 0.50), (FeatAbroadInterest, 0.20)]
  | 22, 0 => [(FeatLeadershipScore, 0.10)]
  | 22, 1 => [(FeatLeadershipScore, 0.30)]
  | 22, 2 => [(FeatLeadershipScore, 0.65), (FeatGovtInterest, 0.10)]
  | 22, 3 => [(FeatLeadershipScore, 0.90), (FeatGovtInterest, 0.15)]
  | 23, 0 => [(FeatGovtInterest, 0.00), (FeatRiskTolerance, 0.20)]
  | 23, 1 => [(FeatGovtInterest, 0.20)]
  | 23, 2 => [(FeatGovtInterest, 0.55), (FeatCareerInstability, 0.15)]
  | 23, 3 => [(FeatGovtInterest, 0.80), (FeatCareerInstability, 0.10)]
  | 23, 4 => [(FeatGovtInterest, 1.00)]
  | 24, 0 => [(FeatRiskTolerance, 0.05), (FeatGovtInterest, 0.15)]
  | 24, 1 => [(FeatRiskTolerance, 0.20), (FeatLeadershipScore, 0.15)]
  | 24, 2 => [(FeatRiskTolerance, 0.50), (FeatLeadershipScore, 0.40), (FeatCareerInstability, 0.40), (FeatTechAffinity, 0.15)]
  | 24, 3 => [(FeatRiskTolerance, 0.75), (FeatLeadershipScore, 0.65), (FeatCareerInstability, 0.60), (FeatTechAffinity, 0.25)]
  | 24, 4 => [(FeatRiskTolerance, 0.90), (FeatLeadershipScore, 0.80), (FeatCareerInstability, 0.75), (FeatTechAffinity, 0.30)]
  | 25, 0 => [(FeatTechAffinity, 0.05)]
  | 25, 1 => [(FeatTechAffinity, 0.25)]
  | 25, 2 => [(FeatTechAffinity, 0.55), (FeatLeadershipScore, 0.20), (FeatAbroadInterest, 0.20)]
  | 25, 3 => [(FeatTechAffinity, 0.75), (FeatLeadershipScore, 0.35), (FeatAbroadInterest, 0.30)]
  | 26, 0 => [(FeatAcademicStrength, 0.10)]
  | 26, 1 => [(FeatAcademicStrength, 0.30)]
  | 26, 2 => [(FeatAcademicStrength, 0.65), (FeatGovtInterest, 0.10)]
  | 26, 3 => [(FeatAcademicStrength, 0.90), (FeatGovtInterest, 0.15)]
  | 27, 0 => [(FeatAbroadInterest, 0.00), (FeatGovtInterest, 0.30)]
  | 27, 1 => [(FeatAbroadInterest, 0.30)]
  | 27, 2 => [(FeatAbroadInterest, 0.75), (FeatTechAffinity, 0.15)]
  | 27, 3 => [(FeatAbroadInterest, 1.00), (FeatTechAffinity, 0.20)]
  | 28, 0 => [(FeatIncomeUrgency, 0.60), (FeatFinancialPressure, 0.30), (FeatGovtInterest, 0.20)]
  | 28, 1 => [(FeatIncomeUrgency, 0.35), (FeatGovtInterest, 0.15)]
  | 28, 2 => [(FeatTechAffinity, 0.30), (FeatLeadershipScore, 0.20)]
  | 28, 3 => [(FeatLeadershipScore, 0.45), (FeatAbroadInterest, 0.30), (FeatTechAffinity, 0.20)]
  | 28, 4 => [(FeatAbroadInterest, 0.55), (FeatLeadershipScore, 0.40), (FeatTechAffinity, 0.35)]
  | 29, 0 => [(FeatTechAffinity, 0.95)]
  | 29, 1 => [(FeatLeadershipScore, 0.65), (FeatTechAffinity, 0.15)]
  | 29, 2 => [(FeatGovtInterest, 0.90)]
  | 29, 3 => [(FeatAcademicStrength, 0.40), (FeatAbroadInterest, 0.30)]
  | 29, 4 => [(FeatAcademicStrength, 0.70), (FeatGovtInterest, 0.15)]
  | 30, 0 => [(FeatTechAffinity, 0.90), (FeatAcademicStrength, 0.30)]
  | 30, 1 => [(FeatLeadershipScore, 0.85), (FeatTechAffinity, 0.15)]
  | 30, 2 => [(FeatGovtInterest, 1.00)]
  | 30, 3 => [(FeatRiskTolerance, 0.85), (FeatLeadershipScore, 0.75), (FeatCareerInstability, 0.55)]
  | 30, 4 => [(FeatAcademicStrength, 0.85), (FeatGovtInterest, 0.15)]
  | 30, 5 => [(FeatAbroadInterest, 0.95), (FeatTechAffinity, 0.30)]
  | _, _ => []

/-- One iteration of the answer loop in `AggregateProfile`: find the question
by ID (first match), look up its feature mappings, accumulate the weights and
bump the per-feature contribution counters.  Unknown question IDs and unmapped
`(DisplayOrder, Selected)` pairs are skipped. -/
def aggStep (questions : List QuestionData) (acc : (Fin 9 → ℚ) × (Fin 9 → ℕ))
    (answer : AnswerItem) : (Fin 9 → ℚ) × (Fin 9 → ℕ) :=
  match questions.find? (fun q => q.ID == answer.QuestionID) with
  | none => acc
  | some q =>
    (questionFeatureMap q.DisplayOrder answer.Selected).foldl
      (fun acc m =>
        (Function.update acc.1 m.1 (acc.1 m.1 + m.2),
         Function.update acc.2 m.1 (acc.2 m.1 + 1)))
      acc

/-- `AggregateProfile` from `aggregator.go`: accumulate all answers' feature
contributions, divide each feature by its contribution count (when nonzero),
then clamp every feature to `[0, 1]` (an `> 1` check followed by a `< 0`
check, exactly as in the source). -/
def aggregateProfile (answers : List AnswerItem) (questions : List QuestionData) :
    UserProfile :=
  let acc := answers.foldl (aggStep questions) (fun _ => 0, fun _ => 0)
  let divided : Fin 9 → ℚ := fun i =>
    if 0 < acc.2 i then acc.1 i / (acc.2 i : ℚ) else acc.1 i
  ⟨fun i =>
    let v := divided i
    let v1 := if 1 < v then 1 else v
    if v1 < 0 then 0 else v1⟩

/- ──────────────────────────────────────────────────────────────────
   career.go / matrix.go — Career enum and weight matrix
   ────────────────────────────────────────────────────────────────── -/

/-- `Career` is a Go `int`-based enum; modelled by its underlying value. -/
abbrev Career := ℕ

def CareerIT : Career := 0
def CareerMBA : Career := 1
def CareerGovt : Career := 2
def CareerStartup : Career := 3
def CareerHigherStudies : Career := 4
def CareerMSAbroad : Career := 5
def CareerDataScience : Career := 6
def CareerCreative : Career := 7
def CareerHealthcare : Career := 8

/-- `NumCareers` from `career.go` as present in the repository (the constant
after `CareerMSAbroad` in the iota block); the weight matrix and the risk
rules additionally reference careers 6–8 of an extended revision. -/
def NumCareers : ℕ := 6

/-- `CareerWeightMatrix` from `matrix.go`: one 9-feature weight row per
career, in enum order (rows 6–8 are the DataScience / Creative / Healthcare
rows listed in the source). -/
def CareerWeightMatrix : List (Fin 9 → ℚ) :=
  [ ![0.40, -0.20, 0.25, -0.10, 0.85, -0.20, 0.30, -0.10, 0.08],
    ![0.35, -0.25, 0.35, 0.82, -0.15, -0.18, 0.20, -0.30, 0.10],
    ![0.30, 0.20, -0.45, 0.15, -0.35, 0.95, -0.42, 0.10, -0.40],
    ![0.20, -0.35, 0.80, 0.72, 0.45, -0.35, -0.10, -0.40, 0.55],
    ![0.88, -0.15, -0.10, -0.15, 0.35, 0.08, -0.10, -0.40, -0.12],
    ![0.65, -0.30, 0.30, -0.05, 0.40, -0.30, 0.90, -0.35, 0.05],
    ![0.75, -0.15, 0.30, 0.20, 0.88, -0.25, 0.50, -0.10, 0.15],
    ![0.15, -0.10, 0.50, 0.30, 0.40, -0.45, 0.30, -0.15, 0.40],
    ![0.85, 0.10, -0.20, 0.35, -0.10, 0.35, 0.20, -0.25, -0.20] ]

/-- `GetCareerWeights` from `matrix.go`: the career's weight row, or the zero
vector when the career is out of range. -/
def getCareerWeights (c : Career) : Fin 9 → ℚ :=
  if c < NumCareers then CareerWeightMatrix.getD c (fun _ => 0) else fun _ => 0

/- ──────────────────────────────────────────────────────────────────
   risk.go, part B — penalty rules and ApplyRiskPenalties
   ────────────────────────────────────────────────────────────────── -/

/-- `RawCareerScore` from `scorer.go`. -/
structure RawCareerScore where
  Career : Career
  Score : ℚ
deriving DecidableEq

/-- `careerPenaltyRule` from `risk.go`. -/
structure CareerPenaltyRule where
  career : Career
  cond : UserProfile → Bool
  penalty : ℚ
  reason : String

/-- `RiskPenalty` from `risk.go`. -/
structure RiskPenalty where
  Penalty : ℚ
  Reason : String
deriving DecidableEq

/-- `riskPenaltyRules` from `risk.go`, in source order. -/
def riskPenaltyRules : List CareerPenaltyRule :=
  [ ⟨CareerStartup, fun p => decide ((0.6 : ℚ) < p.financialPressure), 0.20,
      "High financial pressure makes startup risky"⟩,
    ⟨CareerStartup, fun p => decide ((0.7 : ℚ) < p.incomeUrgency), 0.15,
      "Urgent income need conflicts with startup timeline"⟩,
    ⟨CareerMSAbroad, fun p => decide ((0.65 : ℚ) < p.financialPressure), 0.15,
      "High financial pressure makes MS Abroad difficult"⟩,
    ⟨CareerMSAbroad, fun p => decide ((0.6 : ℚ) < p.incomeUrgency), 0.10,
      "Income urgency conflicts with 2-year study abroad"⟩,
    ⟨CareerHigherStudies, fun p => decide ((0.65 : ℚ) < p.incomeUrgency), 0.25,
      "Urgent income need conflicts with extended studies"⟩,
    ⟨CareerMBA, fun p => decide ((0.7 : ℚ) < p.financialPressure), 0.15,
      "High financial pressure makes MBA fees challenging"⟩,
    ⟨CareerGovt, fun p => decide ((0.8 : ℚ) < p.riskTolerance), 0.10,
      "High risk appetite may lead to dissatisfaction with govt job security"⟩,
    ⟨CareerCreative, fun p => decide ((0.7 : ℚ) < p.financialPressure), 0.15,
      "High financial pressure makes freelance/creative career risky"⟩,
    ⟨CareerCreative, fun p => decide ((0.7 : ℚ) < p.incomeUrgency), 0.10,
      "Urgent income need conflicts with creative career ramp-up"⟩,
    ⟨CareerHealthcare, fun p => decide ((0.7 : ℚ) < p.incomeUrgency), 0.20,
      "Urgent income need conflicts with long medical training (5.5+ years)"⟩,
    ⟨CareerHealthcare, fun p => decide ((0.8 : ℚ) < p.riskTolerance), 0.08,
      "High risk appetite may lead to dissatisfaction with structured medical career"⟩ ]

/-- Multiply the `Score` of the list entry at position `idx` by `factor`
(`adjusted[idx].Score *= factor`); positions past the end are untouched. -/
def mulScoreAt (l : List RawCareerScore) (idx : ℕ) (factor : ℚ) : List RawCareerScore :=
  match l, idx with
  | [], _ => []
  | s :: t, 0 => { s with Score := s.Score * factor } :: t
  | s :: t, n + 1 => s :: mulScoreAt t n factor

/-- One iteration of the rule loop in `ApplyRiskPenalties`: when the rule's
condition holds and the target index is in bounds, shrink that score by
`(1 - penalty)` and append the penalty to the career's entry.  The Go
`map[Career][]RiskPenalty` is modelled as a total function with `[]` for
absent keys (`append` never creates an empty slice, so a key is present in
the Go map exactly when its list is non-empty). -/
def applyRuleStep (profile : UserProfile)
    (acc : List RawCareerScore × (Career → List RiskPenalty))
    (rule : CareerPenaltyRule) : List RawCareerScore × (Career → List RiskPenalty) :=
  if rule.cond profile then
    if rule.career < acc.1.length then
      (mulScoreAt acc.1 rule.career (1 - rule.penalty),
       fun c => if c = rule.career
         then acc.2 c ++ [⟨rule.penalty, rule.reason⟩]
         else acc.2 c)
    else acc
  else acc

/-- `ApplyRiskPenalties` from `risk.go`. -/
def applyRiskPenalties (scores : List RawCareerScore) (profile : UserProfile) :
    List RawCareerScore × (Career → List RiskPenalty) :=
  riskPenaltyRules.foldl (applyRuleStep profile) (scores, fun _ => [])

/-- The product `Π (1 - penalty)` over the rules of `rules` that target career
index `idx` and whose condition holds on `profile`, in rule order. -/
def penaltyFactorAux (rules : List CareerPenaltyRule) (profile : UserProfile) (idx : ℕ) : ℚ :=
  (rules.filter (fun r => r.career == idx && r.cond profile)).foldl
    (fun a r => a * (1 - r.penalty)) 1

/-- Same over the full static rule list of `risk.go`. -/
def penaltyFactor (profile : UserProfile) (idx : ℕ) : ℚ :=
  penaltyFactorAux riskPenaltyRules profile idx

/- ──────────────────────────────────────────────────────────────────
   risk.go (second part of the file) — NormalizeAndRank
   ────────────────────────────────────────────────────────────────── -/

/-- `NormalizedScore` from the normalization part of `risk.go`. -/
structure NormalizedScore where
  Career : Career
  RawScore : ℚ
  Normalized : ℚ
  Percentage : ℚ
deriving DecidableEq

/-- `RankedResult` from `risk.go`. -/
structure RankedResult where
  Rankings : List NormalizedScore
  Confidence : ℚ
  IsMultiFit : Bool
deriving DecidableEq

/-- The minimum raw score: `minScore := scores[0].Score` then folding `<`
comparisons over the tail, as in the source. -/
def minRawScore : List RawCareerScore → ℚ
  | [] => 0
  | s :: t => t.foldl (fun m x => min m x.Score) s.Score

/-- The maximum raw score, same shape. -/
def maxRawScore : List RawCareerScore → ℚ
  | [] => 0
  | s :: t => t.foldl (fun m x => max m x.Score) s.Score

/-- `scoreRange` of `NormalizeAndRank`: `max - min`, forced to `1` when the
difference is `0` (division-by-zero guard). -/
def scoreRangeOf (scores : List RawCareerScore) : ℚ :=
  if maxRawScore scores - minRawScore scores = 0 then 1
  else maxRawScore scores - minRawScore scores

/-- The record built for one career by the normalization loop: raw score and
min-max normalized value rounded to 3 decimal places, percentage rounded to
2 decimal places. -/
def normEntry (minScore scoreRange : ℚ) (s : RawCareerScore) : NormalizedScore :=
  { Career := s.Career
    RawScore := round3 s.Score
    Normalized := round3 ((s.Score - minScore) / scoreRange)
    Percentage := goRound ((s.Score - minScore) / scoreRange * 10000) / 100 }

/-- The confidence computed from the sorted rankings before its final 3dp
rounding: `(Top.Normalized - Second.Normalized) / Top.Normalized` when there
are at least two entries and the top is positive, else `0`. -/
def confRaw : List NormalizedScore → ℚ
  | a :: b :: _ =>
    if 0 < a.Normalized then (a.Normalized - b.Normalized) / a.Normalized else 0
  | _ => 0

/-- The descending comparison used by the `sort.Slice` call in
`NormalizeAndRank` (`normalized[i].Normalized > normalized[j].Normalized`),
as the non-strict total relation of the stable insertion sort it runs on
these short slices. -/
def normDesc (a b : NormalizedScore) : Prop := b.Normalized ≤ a.Normalized

instance : DecidableRel normDesc := fun a b =>
  inferInstanceAs (Decidable (b.Normalized ≤ a.Normalized))

instance : IsTotal NormalizedScore normDesc :=
  ⟨fun a b => (le_total b.Normalized a.Normalized).imp id id⟩

instance : IsTrans NormalizedScore normDesc :=
  ⟨fun _ _ _ h1 h2 => le_trans h2 h1⟩

/-- `NormalizeAndRank` from `risk.go`: min-max normalize (range forced to 1
when degenerate), round the stored fields, sort descending by `Normalized`
(Go's `sort.Slice` runs a stable insertion sort on slices shorter than 12
elements, which covers every career list), and compute the confidence gap
between the two top entries. -/
def normalizeAndRank (scores : List RawCareerScore) : RankedResult :=
  match scores with
  | [] => ⟨[], 0, false⟩
  | _ :: _ =>
    let normalized := scores.map (normEntry (minRawScore scores) (scoreRangeOf scores))
    let sorted := normalized.insertionSort normDesc
    let confidence := round3 (confRaw sorted)
    ⟨sorted, confidence, decide (confidence < 0.1)⟩

/- ──────────────────────────────────────────────────────────────────
   explain.go — GenerateExplanation
   ────────────────────────────────────────────────────────────────── -/

/-- `FeatureContribution` from `explain.go`. -/
structure FeatureContribution where
  Feature : String
  UserValue : ℚ
  CareerWeight : ℚ
  Contribution : ℚ
  Percentage : ℚ
deriving DecidableEq

/-- `Explanation` from `explain.go`.  The display-only `Summary` string
(printf-formatted prose assembled from the same contribution data) is not
modelled; the claims concern the structured `TopFactors` data. -/
structure Explanation where
  Career : Career
  TopFactors : List FeatureContribution
  RiskPenalties : List RiskPenalty

/-- The comparison of the `sort.Slice` call in `GenerateExplanation`
(`|contributions[i].Contribution| > |contributions[j].Contribution|`), as the
non-strict total relation of the stable insertion sort Go runs on this
9-element slice. -/
def absContribDesc (a b : FeatureContribution) : Prop :=
  |b.Contribution| ≤ |a.Contribution|

instance : DecidableRel absContribDesc := fun a b =>
  inferInstanceAs (Decidable (|b.Contribution| ≤ |a.Contribution|))

instance : IsTotal FeatureContribution absContribDesc :=
  ⟨fun a b => (le_total |b.Contribution| |a.Contribution|).imp id id⟩

instance : IsTrans FeatureContribution absContribDesc :=
  ⟨fun _ _ _ h1 h2 => le_trans h2 h1⟩

/-- Accumulate the positive elements of a list onto `a` (the
`totalPositive += contrib` pattern of the explanation loop). -/
def posFold (l : List ℚ) (a : ℚ) : ℚ :=
  l.foldl (fun acc c => if 0 < c then acc + c else acc) a

/-- `totalPositive` of `GenerateExplanation`: the sum of the positive exact
contributions `userVec[i] * weights[i]`, accumulated in feature order. -/
def totalPositive (career : Career) (profile : UserProfile) : ℚ :=
  posFold ((List.finRange 9).map
    (fun i => profile.Features i * getCareerWeights career i)) 0

/-- The contribution records built by the first loop of `GenerateExplanation`
(`UserValue` and `Contribution` stored rounded to 3 decimal places,
`Percentage` still zero). -/
def contribBase (career : Career) (profile : UserProfile) : List FeatureContribution :=
  (List.finRange 9).map (fun i =>
    { Feature := FeatureNames i
      UserValue := round3 (profile.Features i)
      CareerWeight := getCareerWeights career i
      Contribution := round3 (profile.Features i * getCareerWeights career i)
      Percentage := 0 })

/-- `GenerateExplanation` from `explain.go`: build the 9 contribution
records, fill in each positive stored contribution's share of `totalPositive`
(rounded to 2 decimal places) when `totalPositive > 0`, and sort by absolute
stored contribution descending (stable insertion sort, 9 elements). -/
def contribWithPct (career : Career) (profile : UserProfile) : List FeatureContribution :=
  let tp := totalPositive career profile
  let base := contribBase career profile
  if 0 < tp then
    base.map (fun f =>
      if 0 < f.Contribution
      then { f with Percentage := goRound (f.Contribution / tp * 10000) / 100 }
      else f)
  else base

/-- The assembled `Explanation` value returned by `GenerateExplanation`. -/
def generateExplanation (career : Career) (profile : UserProfile)
    (penalties : List RiskPenalty) : Explanation :=
  ⟨career, (contribWithPct career profile).insertionSort absContribDesc, penalties⟩

/- ══════════════════════════════════════════════════════════════════
   Theorems
   ══════════════════════════════════════════════════════════════════ -/

/-- C2, counterexample: a profile whose four risk features are all `0.3`
yields a risk score of exactly `3.0`, and `ComputeRisk` classifies it as
`"Low"` — not `"Medium"` as the claim (and the spec's boundary-check
sentence) state.  The `else if riskScore > 3` comparison is strict, so the
boundary value `3.0` falls into the `"Low"` branch. -/
theorem C2_cex_score_three_is_low :
    (computeRisk ⟨fun _ => 0.3⟩).Score = 3 ∧
    (computeRisk ⟨fun _ => 0.3⟩).Level = "Low" ∧
    "Low" ≠ "Medium" := by
  refine ⟨?_, ?_, by decide⟩ <;>
    norm_num [computeRisk, goRound, UserProfile.incomeUrgency,
      UserProfile.financialPressure, UserProfile.riskTolerance,
      UserProfile.careerInstability, FeatIncomeUrgency, FeatFinancialPressure,
      FeatRiskTolerance, FeatCareerInstability]

/-- C2, amended: `ComputeRisk` classifies a risk score of exactly `3.0` as
`"Low"` (not `"Medium"`) and a risk score of exactly `6.0` as `"Medium"`
(not `"High"`); the level is `"High"` iff `Score > 6`, `"Medium"` iff
`3 < Score ≤ 6`, and `"Low"` iff `Score ≤ 3`. -/
theorem C2_risk_level_boundaries (p : UserProfile) :
    ((computeRisk p).Score = 3 → (computeRisk p).Level = "Low") ∧
    ((computeRisk p).Score = 6 → (computeRisk p).Level = "Medium") ∧
    ((computeRisk p).Level = "High" ↔ 6 < (computeRisk p).Score) ∧
    ((computeRisk p).Level = "Medium" ↔
      3 < (computeRisk p).Score ∧ (computeRisk p).Score ≤ 6) ∧
    ((computeRisk p).Level = "Low" ↔ (computeRisk p).Score ≤ 3) := by
  show (_ = 3 → _) ∧ _
  simp only [computeRisk]
  set s : ℚ := goRound ((p.incomeUrgency * 10 * 0.35 + p.financialPressure * 10 * 0.25 +
    p.riskTolerance * 10 * 0.20 + p.careerInstability * 10 * 0.20) * 100) / 100 with hs
  split_ifs with h6 h3
  · refine ⟨fun h => by rw [h] at h6; norm_num at h6,
      fun h => by rw [h] at h6; norm_num at h6, ?_, ?_, ?_⟩ <;>
      simp_all <;> linarith
  · refine ⟨fun h => by rw [h] at h3; norm_num at h3, fun _ => rfl, ?_, ?_, ?_⟩ <;>
      simp_all
  · push_neg at h6 h3
    refine ⟨fun _ => rfl, fun h => by rw [h] at h3; norm_num at h3, ?_, ?_, ?_⟩ <;>
      simp_all

/-- C3, counterexample: with `IncomeUrgency = 0.001` and the other features
`0`, the weighted-sum formula gives `0.0035`, but `ComputeRisk` rounds the
score to 2 decimal places and returns `0`. -/
theorem C3_cex_score_is_rounded :
    (computeRisk ⟨fun i => if i = FeatIncomeUrgency then 0.001 else 0⟩).Score = 0 ∧
    ((0.001 : ℚ) * 10 * 0.35 + 0 * 10 * 0.25 + 0 * 10 * 0.20 + 0 * 10 * 0.20) = 0.0035 ∧
    (0 : ℚ) ≠ 0.0035 := by
  have e1 : ((1 : Fin 9) = 7) = False := eq_false (by decide)
  have e2 : ((2 : Fin 9) = 7) = False := eq_false (by decide)
  have e8 : ((8 : Fin 9) = 7) = False := eq_false (by decide)
  refine ⟨?_, by norm_num, by norm_num⟩
  norm_num [computeRisk, goRound, UserProfile.incomeUrgency,
    UserProfile.financialPressure, UserProfile.riskTolerance,
    UserProfile.careerInstability, FeatIncomeUrgency, FeatFinancialPressure,
    FeatRiskTolerance, FeatCareerInstability, e1, e2, e8]

/-- C3, amended: for every profile whose nine features lie in `[0,1]`,
`ComputeRisk` returns `Score` equal to the weighted sum
`IncomeUrgency×10×0.35 + FinancialPressure×10×0.25 + RiskTolerance×10×0.20 +
CareerInstability×10×0.20` rounded to 2 decimal places, the score lies in
`[0,10]`, and the `Factors` map holds exactly the four component values
rescaled to 0–10 and rounded to 2 decimal places. -/
theorem C3_risk_score_formula (p : UserProfile)
    (h : ∀ i, 0 ≤ p.Features i ∧ p.Features i ≤ 1) :
    (computeRisk p).Score =
      round2 (p.incomeUrgency * 10 * 0.35 + p.financialPressure * 10 * 0.25 +
        p.riskTolerance * 10 * 0.20 + p.careerInstability * 10 * 0.20) ∧
    0 ≤ (computeRisk p).Score ∧ (computeRisk p).Score ≤ 10 ∧
    (computeRisk p).Factors =
      [ ("income_urgency", round2 (p.incomeUrgency * 10)),
        ("financial_pressure", round2 (p.financialPressure * 10)),
        ("risk_tolerance", round2 (p.riskTolerance * 10)),
        ("career_instability", round2 (p.careerInstability * 10)) ] := by
  obtain ⟨hi0, hi1⟩ := h FeatIncomeUrgency
  obtain ⟨hf0, hf1⟩ := h FeatFinancialPressure
  obtain ⟨hr0, hr1⟩ := h FeatRiskTolerance
  obtain ⟨hc0, hc1⟩ := h FeatCareerInstability
  have hform : (0 : ℚ) ≤ p.incomeUrgency * 10 * 0.35 + p.financialPressure * 10 * 0.25 +
      p.riskTolerance * 10 * 0.20 + p.careerInstability * 10 * 0.20 := by
    unfold UserProfile.incomeUrgency UserProfile.financialPressure
      UserProfile.riskTolerance UserProfile.careerInstability
    linarith
  have hform10 : p.incomeUrgency * 10 * 0.35 + p.financialPressure * 10 * 0.25 +
      p.riskTolerance * 10 * 0.20 + p.careerInstability * 10 * 0.20 ≤ 10 := by
    unfold UserProfile.incomeUrgency UserProfile.financialPressure
      UserProfile.riskTolerance UserProfile.careerInstability
    linarith
  refine ⟨rfl, ?_, ?_, rfl⟩
  · have := round2_mono hform
    rwa [show round2 0 = 0 from by exact_mod_cast round2_intCast 0] at this
  · have := round2_mono hform10
    rwa [show round2 10 = 10 from by exact_mod_cast round2_intCast 10] at this

/-- C3 witness: the amended formula evaluated on the profile whose nine
features are all `0.5`. -/
theorem C3_risk_score_formula_witness :
    (computeRisk ⟨fun _ => 0.5⟩).Score = round2 ((0.5 : ℚ) * 10 * 0.35 +
      0.5 * 10 * 0.25 + 0.5 * 10 * 0.20 + 0.5 * 10 * 0.20) ∧
    0 ≤ (computeRisk ⟨fun _ => 0.5⟩).Score ∧ (computeRisk ⟨fun _ => 0.5⟩).Score ≤ 10 := by
  obtain ⟨h1, h2, h3, _⟩ :=
    C3_risk_score_formula ⟨fun _ => 0.5⟩ (fun _ => by norm_num)
  exact ⟨h1, h2, h3⟩

/-- C4: every feature of the profile returned by `AggregateProfile` lies in
`[0,1]`, for every answer list and question catalog (the final clamping loop
guarantees the bound whatever the accumulated sums are). -/
theorem C4_profile_features_clamped (answers : List AnswerItem)
    (questions : List QuestionData) (i : Fin 9) :
    0 ≤ (aggregateProfile answers questions).Features i ∧
    (aggregateProfile answers questions).Features i ≤ 1 := by
  simp only [aggregateProfile]
  set v : ℚ := (if 0 < (answers.foldl (aggStep questions) (fun _ => 0, fun _ => 0)).2 i
    then _ / _ else _) with hv
  by_cases h1 : 1 < v
  · simp only [if_pos h1]
    norm_num
  · simp only [if_neg h1]
    push_neg at h1
    by_cases h0 : v < 0
    · simp only [if_pos h0]
      norm_num
    · simp only [if_neg h0]
      push_neg at h0
      exact ⟨h0, h1⟩

/-- C9: an answer whose `QuestionID` is absent from the catalog, or whose
`(DisplayOrder, Selected)` pair has no entry in the static feature map,
contributes nothing: appending it yields exactly the profile obtained by
omitting it, and no error is raised (the function is total). -/
theorem C9_unknown_answer_noop (answers : List AnswerItem)
    (questions : List QuestionData) (a : AnswerItem)
    (h : (∀ q ∈ questions, q.ID ≠ a.QuestionID) ∨
      (∀ q ∈ questions, q.ID = a.QuestionID →
        questionFeatureMap q.DisplayOrder a.Selected = [])) :
    aggregateProfile (answers ++ [a]) questions = aggregateProfile answers questions := by
  have hstep : ∀ acc, aggStep questions acc a = acc := by
    intro acc
    unfold aggStep
    rcases h with h | h
    · have : questions.find? (fun q => q.ID == a.QuestionID) = none := by
        rw [List.find?_eq_none]
        intro q hq
        simpa using h q hq
      rw [this]
    · cases hfq : questions.find? (fun q => q.ID == a.QuestionID) with
      | none => rfl
      | some q =>
        have hq1 : q ∈ questions := List.mem_of_find?_eq_some hfq
        have hq2 : q.ID = a.QuestionID := by simpa using List.find?_some hfq
        simp [h q hq1 hq2]
  unfold aggregateProfile
  rw [List.foldl_append, List.foldl_cons, List.foldl_nil, hstep]

/-- C9 witness: a catalog with one question (ID 5) and an extra answer for the
unknown ID 99. -/
theorem C9_unknown_answer_noop_witness :
    (∀ q ∈ [(⟨5, "", 1⟩ : QuestionData)], q.ID ≠ 99) ∧
    aggregateProfile ([⟨5, 0⟩] ++ [⟨99, 0⟩]) [⟨5, "", 1⟩] =
      aggregateProfile [⟨5, 0⟩] [⟨5, "", 1⟩] :=
  ⟨by decide,
   C9_unknown_answer_noop [⟨5, 0⟩] [⟨5, "", 1⟩] ⟨99, 0⟩ (Or.inl (by decide))⟩

/- Helper lemmas for `ApplyRiskPenalties`. -/

theorem mulScoreAt_length (l : List RawCareerScore) (idx : ℕ) (f : ℚ) :
    (mulScoreAt l idx f).length = l.length := by
  induction l generalizing idx with
  | nil => rfl
  | cons s t ih =>
    cases idx with
    | zero => rfl
    | succ n => simpa [mulScoreAt] using ih n

theorem mulScoreAt_getElem? (l : List RawCareerScore) (idx : ℕ) (f : ℚ) (i : ℕ) :
    (mulScoreAt l idx f)[i]? =
      if idx = i then (l[i]?).map (fun s => { s with Score := s.Score * f })
      else l[i]? := by
  induction l generalizing idx i with
  | nil => simp [mulScoreAt]
  | cons s t ih =>
    cases idx with
    | zero =>
      cases i with
      | zero => simp [mulScoreAt]
      | succ j => simp [mulScoreAt]
    | succ n =>
      cases i with
      | zero => simp [mulScoreAt]
      | succ j =>
        simp only [mulScoreAt, List.getElem?_cons_succ, ih n j,
          Nat.succ_eq_add_one, add_left_inj]

theorem foldl_mul_one {α : Type} (g : α → ℚ) (l : List α) (a : ℚ) :
    l.foldl (fun x r => x * g r) a = a * l.foldl (fun x r => x * g r) 1 := by
  induction l generalizing a with
  | nil => simp
  | cons b t ih =>
    simp only [List.foldl_cons]
    rw [ih (a * g b), ih (1 * g b)]
    ring

theorem applyRuleStep_cond_false (profile : UserProfile)
    (acc : List RawCareerScore × (Career → List RiskPenalty))
    (rule : CareerPenaltyRule) (hc : ¬ rule.cond profile) :
    applyRuleStep profile acc rule = acc := by
  unfold applyRuleStep
  rw [if_neg hc]

theorem applyRuleStep_oob (profile : UserProfile)
    (acc : List RawCareerScore × (Career → List RiskPenalty))
    (rule : CareerPenaltyRule) (hb : ¬ rule.career < acc.1.length) :
    applyRuleStep profile acc rule = acc := by
  unfold applyRuleStep
  rw [if_neg hb]
  simp

theorem applyRuleStep_fires (profile : UserProfile)
    (acc : List RawCareerScore × (Career → List RiskPenalty))
    (rule : CareerPenaltyRule) (hc : rule.cond profile)
    (hb : rule.career < acc.1.length) :
    applyRuleStep profile acc rule =
      (mulScoreAt acc.1 rule.career (1 - rule.penalty),
       fun c => if c = rule.career
         then acc.2 c ++ [⟨rule.penalty, rule.reason⟩]
         else acc.2 c) := by
  unfold applyRuleStep
  rw [if_pos hc, if_pos hb]

theorem applyRules_length (profile : UserProfile) (rules : List CareerPenaltyRule)
    (scores : List RawCareerScore) (pmap : Career → List RiskPenalty) :
    ((rules.foldl (applyRuleStep profile) (scores, pmap)).1).length = scores.length := by
  induction rules generalizing scores pmap with
  | nil => rfl
  | cons r rs ih =>
    simp only [List.foldl_cons]
    by_cases hc : r.cond profile
    · by_cases hb : r.career < scores.length
      · rw [applyRuleStep_fires profile _ r hc hb, ih,
          mulScoreAt_length scores r.career (1 - r.penalty)]
      · rw [applyRuleStep_oob profile _ r hb]
        exact ih scores pmap
    · rw [applyRuleStep_cond_false profile _ r hc]
      exact ih scores pmap

theorem applyRules_getElem? (profile : UserProfile) (rules : List CareerPenaltyRule)
    (scores : List RawCareerScore) (pmap : Career → List RiskPenalty) (i : ℕ) :
    ((rules.foldl (applyRuleStep profile) (scores, pmap)).1)[i]? =
      (scores[i]?).map
        (fun s => { s with Score := s.Score * penaltyFactorAux rules profile i }) := by
  induction rules generalizing scores pmap with
  | nil =>
    cases h : scores[i]? with
    | none => simp [penaltyFactorAux, h]
    | some s => simp [penaltyFactorAux, h]
  | cons r rs ih =>
    simp only [List.foldl_cons]
    by_cases hc : r.cond profile
    · by_cases hb : r.career < scores.length
      · rw [applyRuleStep_fires profile _ r hc hb, ih, mulScoreAt_getElem?]
        by_cases hci : r.career = i
        · rw [if_pos hci]
          have hfil : penaltyFactorAux (r :: rs) profile i =
              (1 - r.penalty) * penaltyFactorAux rs profile i := by
            unfold penaltyFactorAux
            rw [List.filter_cons, if_pos (by simp [hci, hc])]
            rw [List.foldl_cons, foldl_mul_one _ _ (1 * (1 - r.penalty))]
            ring
          rw [hfil]
          cases h : scores[i]? with
          | none => rfl
          | some s => simp [mul_assoc]
        · rw [if_neg hci]
          have hfil : penaltyFactorAux (r :: rs) profile i =
              penaltyFactorAux rs profile i := by
            unfold penaltyFactorAux
            rw [List.filter_cons, if_neg (by simp [hci])]
          rw [hfil]
      · rw [applyRuleStep_oob profile _ r hb, ih]
        by_cases hci : r.career = i
        · have hnone : scores[i]? = none :=
            List.getElem?_eq_none (hci ▸ Nat.le_of_not_lt hb)
          simp [hnone]
        · have hfil : penaltyFactorAux (r :: rs) profile i =
              penaltyFactorAux rs profile i := by
            unfold penaltyFactorAux
            rw [List.filter_cons, if_neg (by simp [hci])]
          rw [hfil]
    · rw [applyRuleStep_cond_false profile _ r hc, ih]
      have hfil : penaltyFactorAux (r :: rs) profile i =
          penaltyFactorAux rs profile i := by
        unfold penaltyFactorAux
        rw [List.filter_cons, if_neg (by simp [hc])]
      rw [hfil]

theorem applyRules_pmap (profile : UserProfile) (rules : List CareerPenaltyRule)
    (scores : List RawCareerScore) (pmap : Career → List RiskPenalty) (c : Career) :
    (rules.foldl (applyRuleStep profile) (scores, pmap)).2 c =
      pmap c ++ (rules.filter (fun r => r.career == c && r.cond profile &&
        decide (r.career < scores.length))).map
          (fun r => (⟨r.penalty, r.reason⟩ : RiskPenalty)) := by
  induction rules generalizing scores pmap with
  | nil => simp
  | cons r rs ih =>
    simp only [List.foldl_cons]
    by_cases hc : r.cond profile
    · by_cases hb : r.career < scores.length
      · rw [applyRuleStep_fires profile _ r hc hb, ih, mulScoreAt_length]
        by_cases hcc : c = r.career
        · simp only [if_pos hcc, List.filter_cons]
          rw [if_pos (show (r.career == c && r.cond profile &&
              decide (r.career < scores.length)) = true by
            rw [Bool.and_eq_true, Bool.and_eq_true]
            exact ⟨⟨beq_iff_eq.mpr hcc.symm, hc⟩, decide_eq_true hb⟩)]
          simp [List.append_assoc]
        · simp only [if_neg hcc, List.filter_cons]
          rw [if_neg (by simp; intro h; exact absurd h.symm hcc)]
      · rw [applyRuleStep_oob profile _ r hb, ih]
        simp only [List.filter_cons]
        rw [if_neg (by simp [hb])]
    · rw [applyRuleStep_cond_false profile _ r hc, ih]
      simp only [List.filter_cons]
      rw [if_neg (by simp [hc])]

/-- C1: for a score list whose entry at each position holds the career with
that enum value (as `ComputeRawScores` produces), the adjusted score of a
career is its original score multiplied by the product of `(1 - penalty)`
over all rules that target that career and whose condition holds on the
profile — multiplicative compounding (`penaltyFactor` is literally that
product, in rule order). -/
theorem C1_penalties_compound_multiplicatively (scores : List RawCareerScore)
    (profile : UserProfile)
    (hcar : ∀ i (hi : i < scores.length), (scores.get ⟨i, hi⟩).Career = i)
    (c : ℕ) (s : RawCareerScore) (hs : scores[c]? = some s) :
    s.Career = c ∧
    ((applyRiskPenalties scores profile).1)[c]? =
      some (⟨s.Career, s.Score * penaltyFactor profile c⟩ : RawCareerScore) := by
  constructor
  · have hlt : c < scores.length := by
      by_contra hge
      rw [List.getElem?_eq_none (Nat.le_of_not_lt hge)] at hs
      exact Option.noConfusion hs
    have hget : scores[c] = s := by
      have h2 := List.getElem?_eq_getElem (l := scores) hlt
      rw [hs] at h2
      exact (Option.some_inj.mp h2).symm
    have h3 := hcar c hlt
    rwa [List.get_eq_getElem, hget] at h3
  · unfold applyRiskPenalties penaltyFactor
    rw [applyRules_getElem?, hs]
    rfl

/-- C1 witness: a profile with `FinancialPressure = 0.7` and
`IncomeUrgency = 0.8` fires both Startup rules; the Startup score `2`
becomes `2 × (1-0.20) × (1-0.15) = 1.36`, and the compounded factor `0.68`
differs from the additive `1 - (0.20 + 0.15) = 0.65`. -/
theorem C1_penalties_compound_multiplicatively_witness :
    (((3 : ℕ) < ([⟨0, 1⟩, ⟨1, 1⟩, ⟨2, 1⟩, ⟨3, 2⟩, ⟨4, 1⟩, ⟨5, 1⟩] :
        List RawCareerScore).length) ∧
    ((applyRiskPenalties [⟨0, 1⟩, ⟨1, 1⟩, ⟨2, 1⟩, ⟨3, 2⟩, ⟨4, 1⟩, ⟨5, 1⟩]
        ⟨fun i => if i = 1 then 0.7 else if i = 7 then 0.8 else 0⟩).1)[3]? =
      some (⟨3, 2 * penaltyFactor
        ⟨fun i => if i = 1 then 0.7 else if i = 7 then 0.8 else 0⟩ 3⟩ :
          RawCareerScore)) ∧
    penaltyFactor ⟨fun i => if i = 1 then 0.7 else if i = 7 then 0.8 else 0⟩ 3 =
      (1 - 0.20) * (1 - 0.15) ∧
    ((1 : ℚ) - 0.20) * (1 - 0.15) ≠ 1 - (0.20 + 0.15) := by
  have f21 : ((2 : Fin 9) = 1) = False := eq_false (by decide)
  have f27 : ((2 : Fin 9) = 7) = False := eq_false (by decide)
  have f71 : ((7 : Fin 9) = 1) = False := eq_false (by decide)
  have dA : decide ((3/5 : ℚ) < 7/10) = true := decide_eq_true (by norm_num)
  have dB : decide ((13/20 : ℚ) < 7/10) = true := decide_eq_true (by norm_num)
  have dC : decide ((7/10 : ℚ) < 7/10) = false := decide_eq_false (by norm_num)
  have dD : decide ((7/10 : ℚ) < 4/5) = true := decide_eq_true (by norm_num)
  have dE : decide ((3/5 : ℚ) < 4/5) = true := decide_eq_true (by norm_num)
  have dF : decide ((13/20 : ℚ) < 4/5) = true := decide_eq_true (by norm_num)
  have dG : decide ((4/5 : ℚ) < 0) = false := decide_eq_false (by norm_num)
  refine ⟨⟨by decide, ?_⟩, ?_, by norm_num⟩
  · exact (C1_penalties_compound_multiplicatively _ _ (by decide) 3 ⟨3, 2⟩ (by decide)).2
  · norm_num [penaltyFactor, penaltyFactorAux, riskPenaltyRules,
      UserProfile.financialPressure, UserProfile.incomeUrgency,
      UserProfile.riskTolerance, FeatFinancialPressure, FeatIncomeUrgency,
      FeatRiskTolerance, CareerStartup, CareerMSAbroad, CareerHigherStudies,
      CareerMBA, CareerGovt, CareerCreative, CareerHealthcare, List.filter_cons,
      f21, f27, f71, dA, dB, dC, dD, dE, dF, dG]

/-- C10: `ApplyRiskPenalties` is a pure function of its inputs (the Go code
copies the slice before modifying it; in this embedding the input list is
untouched by construction and the adjusted list has the same length).  Every
position whose career is targeted by no firing rule keeps exactly its
original entry and its career has no entry in the penalty map ( `[]` is the
absent-key value: `append` never creates an empty slice).  A rule whose
target index is outside the score list changes nothing and records no
penalty; in particular with the 6-career enum (`NumCareers = 6`) the
Creative (7) and Healthcare (8) rules never apply. -/
theorem C10_untargeted_careers_unchanged (scores : List RawCareerScore)
    (profile : UserProfile) :
    ((applyRiskPenalties scores profile).1.length = scores.length) ∧
    (∀ i : ℕ, (∀ r ∈ riskPenaltyRules, r.career = i → ¬ r.cond profile) →
      ((applyRiskPenalties scores profile).1)[i]? = scores[i]?) ∧
    (∀ c : Career, (∀ r ∈ riskPenaltyRules, r.career = c → ¬ r.cond profile) →
      (applyRiskPenalties scores profile).2 c = []) ∧
    (∀ c : Career, scores.length ≤ c → (applyRiskPenalties scores profile).2 c = []) ∧
    (scores.length = NumCareers →
      (applyRiskPenalties scores profile).2 CareerCreative = [] ∧
      (applyRiskPenalties scores profile).2 CareerHealthcare = []) := by
  have hmapEmpty : ∀ c : Career,
      (∀ r ∈ riskPenaltyRules, ¬ (r.career == c && r.cond profile &&
        decide (r.career < scores.length)) = true) →
      (applyRiskPenalties scores profile).2 c = [] := by
    intro c hall
    unfold applyRiskPenalties
    rw [applyRules_pmap, List.filter_eq_nil_iff.mpr hall]
    rfl
  have hoob : ∀ c : Career, scores.length ≤ c →
      (applyRiskPenalties scores profile).2 c = [] := by
    intro c hlen
    refine hmapEmpty c (fun r hr => ?_)
    simp only [Bool.and_eq_true, beq_iff_eq, decide_eq_true_eq]
    rintro ⟨⟨hcar, -⟩, hlt⟩
    exact absurd (hcar ▸ hlt) (Nat.not_lt.mpr hlen)
  refine ⟨applyRules_length profile riskPenaltyRules scores _, ?_, ?_, hoob, ?_⟩
  · intro i hi
    unfold applyRiskPenalties
    rw [applyRules_getElem?]
    have hfil : riskPenaltyRules.filter
        (fun r => r.career == i && r.cond profile) = [] := by
      rw [List.filter_eq_nil_iff]
      intro r hr
      simp only [Bool.and_eq_true, beq_iff_eq]
      rintro ⟨hcar, hcond⟩
      exact (hi r hr hcar) hcond
    unfold penaltyFactorAux
    rw [hfil]
    cases h : scores[i]? with
    | none => rfl
    | some s => simp
  · intro c hc
    refine hmapEmpty c (fun r hr => ?_)
    simp only [Bool.and_eq_true, beq_iff_eq]
    rintro ⟨⟨hcar, hcond⟩, -⟩
    exact (hc r hr hcar) hcond
  · intro h6
    exact ⟨hoob CareerCreative (by rw [h6]; decide),
           hoob CareerHealthcare (by rw [h6]; decide)⟩

/-- C10 witness: with the zero profile no rule fires; on a 6-score list every
entry is preserved, the Startup career has no penalty entry, and the Creative
and Healthcare rules never apply. -/
theorem C10_untargeted_careers_unchanged_witness :
    ((applyRiskPenalties [⟨0, 1⟩, ⟨1, 1⟩, ⟨2, 1⟩, ⟨3, 2⟩, ⟨4, 1⟩, ⟨5, 1⟩]
        ⟨fun _ => 0⟩).1.length = 6) ∧
    ((applyRiskPenalties [⟨0, 1⟩, ⟨1, 1⟩, ⟨2, 1⟩, ⟨3, 2⟩, ⟨4, 1⟩, ⟨5, 1⟩]
        ⟨fun _ => 0⟩).1)[3]? = some (⟨3, 2⟩ : RawCareerScore) ∧
    (applyRiskPenalties [⟨0, 1⟩, ⟨1, 1⟩, ⟨2, 1⟩, ⟨3, 2⟩, ⟨4, 1⟩, ⟨5, 1⟩]
        ⟨fun _ => 0⟩).2 CareerStartup = [] ∧
    (applyRiskPenalties [⟨0, 1⟩, ⟨1, 1⟩, ⟨2, 1⟩, ⟨3, 2⟩, ⟨4, 1⟩, ⟨5, 1⟩]
        ⟨fun _ => 0⟩).2 CareerCreative = [] ∧
    (applyRiskPenalties [⟨0, 1⟩, ⟨1, 1⟩, ⟨2, 1⟩, ⟨3, 2⟩, ⟨4, 1⟩, ⟨5, 1⟩]
        ⟨fun _ => 0⟩).2 CareerHealthcare = [] := by
  have hnofire : ∀ r ∈ riskPenaltyRules, ¬ r.cond (⟨fun _ => 0⟩ : UserProfile) := by
    intro r hr
    fin_cases hr <;>
      norm_num [riskPenaltyRules, UserProfile.financialPressure,
        UserProfile.incomeUrgency, UserProfile.riskTolerance,
        FeatFinancialPressure, FeatIncomeUrgency, FeatRiskTolerance]
  obtain ⟨hlen, hkeep, hmap, _, hcrhe⟩ :=
    C10_untargeted_careers_unchanged
      [⟨0, 1⟩, ⟨1, 1⟩, ⟨2, 1⟩, ⟨3, 2⟩, ⟨4, 1⟩, ⟨5, 1⟩] ⟨fun _ => 0⟩
  obtain ⟨hcr, hhe⟩ := hcrhe (by decide)
  exact ⟨hlen, by rw [hkeep 3 (fun r hr _ => hnofire r hr)]; decide,
    hmap CareerStartup (fun r hr _ => hnofire r hr), hcr, hhe⟩

/- Helper lemmas for `NormalizeAndRank`. -/

theorem foldl_min_le_init (l : List RawCareerScore) (a : ℚ) :
    l.foldl (fun m x => min m x.Score) a ≤ a := by
  induction l generalizing a with
  | nil => exact le_refl a
  | cons x t ih =>
    simp only [List.foldl_cons]
    exact le_trans (ih (min a x.Score)) (min_le_left a x.Score)

theorem foldl_min_le_mem (l : List RawCareerScore) (a : ℚ) (x : RawCareerScore)
    (hx : x ∈ l) : l.foldl (fun m y => min m y.Score) a ≤ x.Score := by
  induction l generalizing a with
  | nil => cases hx
  | cons y t ih =>
    simp only [List.foldl_cons]
    rcases List.mem_cons.mp hx with h | h
    · exact le_trans (foldl_min_le_init t (min a y.Score))
        (h ▸ min_le_right a y.Score)
    · exact ih (min a y.Score) h

theorem foldl_min_attained (l : List RawCareerScore) (a : ℚ) :
    l.foldl (fun m x => min m x.Score) a = a ∨
    ∃ x ∈ l, l.foldl (fun m y => min m y.Score) a = x.Score := by
  induction l generalizing a with
  | nil => exact Or.inl rfl
  | cons y t ih =>
    simp only [List.foldl_cons]
    rcases ih (min a y.Score) with h | ⟨x, hx, hfx⟩
    · rcases min_choice a y.Score with hm | hm
      · exact Or.inl (h.trans hm)
      · exact Or.inr ⟨y, List.mem_cons_self y t, h.trans hm⟩
    · exact Or.inr ⟨x, List.mem_cons_of_mem y hx, hfx⟩

theorem foldl_max_init_le (l : List RawCareerScore) (a : ℚ) :
    a ≤ l.foldl (fun m x => max m x.Score) a := by
  induction l generalizing a with
  | nil => exact le_refl a
  | cons x t ih =>
    simp only [List.foldl_cons]
    exact le_trans (le_max_left a x.Score) (ih (max a x.Score))

theorem foldl_max_mem_le (l : List RawCareerScore) (a : ℚ) (x : RawCareerScore)
    (hx : x ∈ l) : x.Score ≤ l.foldl (fun m y => max m y.Score) a := by
  induction l generalizing a with
  | nil => cases hx
  | cons y t ih =>
    simp only [List.foldl_cons]
    rcases List.mem_cons.mp hx with h | h
    · exact le_trans (h ▸ le_max_right a y.Score)
        (foldl_max_init_le t (max a y.Score))
    · exact ih (max a y.Score) h

theorem foldl_max_attained (l : List RawCareerScore) (a : ℚ) :
    l.foldl (fun m x => max m x.Score) a = a ∨
    ∃ x ∈ l, l.foldl (fun m y => max m y.Score) a = x.Score := by
  induction l generalizing a with
  | nil => exact Or.inl rfl
  | cons y t ih =>
    simp only [List.foldl_cons]
    rcases ih (max a y.Score) with h | ⟨x, hx, hfx⟩
    · rcases max_choice a y.Score with hm | hm
      · exact Or.inl (h.trans hm)
      · exact Or.inr ⟨y, List.mem_cons_self y t, h.trans hm⟩
    · exact Or.inr ⟨x, List.mem_cons_of_mem y hx, hfx⟩

theorem minRawScore_le (scores : List RawCareerScore) (s : RawCareerScore)
    (hs : s ∈ scores) : minRawScore scores ≤ s.Score := by
  cases scores with
  | nil => cases hs
  | cons a t =>
    rcases List.mem_cons.mp hs with h | h
    · exact h ▸ foldl_min_le_init t a.Score
    · exact foldl_min_le_mem t a.Score s h

theorem le_maxRawScore (scores : List RawCareerScore) (s : RawCareerScore)
    (hs : s ∈ scores) : s.Score ≤ maxRawScore scores := by
  cases scores with
  | nil => cases hs
  | cons a t =>
    rcases List.mem_cons.mp hs with h | h
    · exact h ▸ foldl_max_init_le t a.Score
    · exact foldl_max_mem_le t a.Score s h

theorem minRawScore_attained (scores : List RawCareerScore) (hne : scores ≠ []) :
    ∃ s ∈ scores, minRawScore scores = s.Score := by
  cases scores with
  | nil => exact absurd rfl hne
  | cons a t =>
    rcases foldl_min_attained t a.Score with h | ⟨x, hx, hfx⟩
    · exact ⟨a, List.mem_cons_self a t, h⟩
    · exact ⟨x, List.mem_cons_of_mem a hx, hfx⟩

theorem maxRawScore_attained (scores : List RawCareerScore) (hne : scores ≠ []) :
    ∃ s ∈ scores, maxRawScore scores = s.Score := by
  cases scores with
  | nil => exact absurd rfl hne
  | cons a t =>
    rcases foldl_max_attained t a.Score with h | ⟨x, hx, hfx⟩
    · exact ⟨a, List.mem_cons_self a t, h⟩
    · exact ⟨x, List.mem_cons_of_mem a hx, hfx⟩

theorem minRawScore_le_maxRawScore (scores : List RawCareerScore)
    (hne : scores ≠ []) : minRawScore scores ≤ maxRawScore scores := by
  obtain ⟨s, hs, _⟩ := minRawScore_attained scores hne
  exact le_trans (minRawScore_le scores s hs) (le_maxRawScore scores s hs)

/-- The exact (pre-rounding) min-max normalized value of every member lies in
`[0,1]`. -/
theorem norm_mem_unit (scores : List RawCareerScore) (s : RawCareerScore)
    (hs : s ∈ scores) :
    0 ≤ (s.Score - minRawScore scores) / scoreRangeOf scores ∧
    (s.Score - minRawScore scores) / scoreRangeOf scores ≤ 1 := by
  have hmin := minRawScore_le scores s hs
  have hmax := le_maxRawScore scores s hs
  unfold scoreRangeOf
  by_cases hd : maxRawScore scores - minRawScore scores = 0
  · rw [if_pos hd]
    have hsc : s.Score = minRawScore scores := le_antisymm (by linarith) hmin
    rw [hsc]
    norm_num
  · rw [if_neg hd]
    have hlt : 0 < maxRawScore scores - minRawScore scores := by
      rcases lt_or_le (minRawScore scores) (maxRawScore scores) with h | h
      · linarith
      · exact absurd (by linarith : maxRawScore scores - minRawScore scores = 0) hd
    constructor
    · exact div_nonneg (by linarith) (le_of_lt hlt)
    · rw [div_le_one hlt]
      linarith

theorem scoreRangeOf_pos (scores : List RawCareerScore) (hne : scores ≠ []) :
    0 < scoreRangeOf scores := by
  unfold scoreRangeOf
  by_cases hd : maxRawScore scores - minRawScore scores = 0
  · rw [if_pos hd]; norm_num
  · rw [if_neg hd]
    have := minRawScore_le_maxRawScore scores hne
    rcases lt_or_eq_of_le this with h | h
    · linarith
    · exact absurd (by linarith) hd

/-- Projections of `normalizeAndRank` on a non-empty input. -/
theorem normalizeAndRank_rankings (scores : List RawCareerScore)
    (hne : scores ≠ []) :
    (normalizeAndRank scores).Rankings =
      (scores.map (normEntry (minRawScore scores) (scoreRangeOf scores))).insertionSort
        normDesc := by
  cases scores with
  | nil => exact absurd rfl hne
  | cons a t => rfl

theorem normalizeAndRank_confidence (scores : List RawCareerScore)
    (hne : scores ≠ []) :
    (normalizeAndRank scores).Confidence =
      round3 (confRaw (normalizeAndRank scores).Rankings) := by
  cases scores with
  | nil => exact absurd rfl hne
  | cons a t => rfl

theorem normalizeAndRank_isMultiFit (scores : List RawCareerScore)
    (hne : scores ≠ []) :
    (normalizeAndRank scores).IsMultiFit =
      decide ((normalizeAndRank scores).Confidence < 0.1) := by
  cases scores with
  | nil => exact absurd rfl hne
  | cons a t => rfl

/-- Every ranking entry is the normalization of some input score, and its
`Normalized` and `Percentage` fields are bounded. -/
theorem rankings_mem_bounds (scores : List RawCareerScore) (hne : scores ≠ [])
    (e : NormalizedScore) (he : e ∈ (normalizeAndRank scores).Rankings) :
    (∃ s ∈ scores, e = normEntry (minRawScore scores) (scoreRangeOf scores) s) ∧
    0 ≤ e.Normalized ∧ e.Normalized ≤ 1 ∧
    0 ≤ e.Percentage ∧ e.Percentage ≤ 100 := by
  rw [normalizeAndRank_rankings scores hne] at he
  have hmem := (List.perm_insertionSort normDesc _).mem_iff.mp he
  obtain ⟨s, hs, hes⟩ := List.mem_map.mp hmem
  obtain ⟨h0, h1⟩ := norm_mem_unit scores s hs
  refine ⟨⟨s, hs, hes.symm⟩, ?_, ?_, ?_, ?_⟩
  · rw [← hes]
    exact round3_nonneg h0
  · rw [← hes]
    exact round3_le_one h1
  · rw [← hes]
    show 0 ≤ goRound ((s.Score - minRawScore scores) / scoreRangeOf scores * 10000) / 100
    have := goRound_nonneg (by positivity :
      (0:ℚ) ≤ (s.Score - minRawScore scores) / scoreRangeOf scores * 10000)
    positivity
  · rw [← hes]
    show goRound ((s.Score - minRawScore scores) / scoreRangeOf scores * 10000) / 100 ≤ 100
    have hb : (s.Score - minRawScore scores) / scoreRangeOf scores * 10000 ≤ 10000 := by
      nlinarith
    have := goRound_mono hb
    rw [show goRound (10000 : ℚ) = 10000 from by exact_mod_cast goRound_intCast 10000] at this
    linarith

/- Stability of the insertion sort: a pairwise property `P` such that
`¬ r a b → P b a` survives `orderedInsert` and hence `insertionSort`. -/

theorem pairwise_orderedInsert {α : Type} (r : α → α → Prop) [DecidableRel r]
    (P : α → α → Prop) (a : α) :
    ∀ l : List α, l.Pairwise P → (∀ x ∈ l, P a x) →
      (∀ b ∈ l, ¬ r a b → P b a) → (l.orderedInsert r a).Pairwise P := by
  intro l
  induction l with
  | nil => intro _ _ _; simp
  | cons b t ih =>
    intro hP hax hba
    rw [List.orderedInsert]
    by_cases hr : r a b
    · rw [if_pos hr]
      exact List.Pairwise.cons hax hP
    · rw [if_neg hr]
      rcases List.pairwise_cons.mp hP with ⟨hbt, htP⟩
      refine List.Pairwise.cons ?_ ?_
      · intro x hx
        rcases (List.mem_orderedInsert r).mp hx with hxa | hxt
        · exact hxa ▸ hba b (List.mem_cons_self b t) hr
        · exact hbt x hxt
      · exact ih htP (fun x hx => hax x (List.mem_cons_of_mem b hx))
          (fun x hx hrx => hba x (List.mem_cons_of_mem b hx) hrx)

theorem pairwise_insertionSort {α : Type} (r : α → α → Prop) [DecidableRel r]
    (P : α → α → Prop) (hv : ∀ a b, ¬ r a b → P b a) :
    ∀ l : List α, l.Pairwise P → (l.insertionSort r).Pairwise P := by
  intro l
  induction l with
  | nil => intro _; exact List.Pairwise.nil
  | cons a t ih =>
    intro hP
    rcases List.pairwise_cons.mp hP with ⟨hat, htP⟩
    rw [List.insertionSort]
    refine pairwise_orderedInsert r P a _ (ih htP) ?_ (fun b _ => hv a b)
    intro x hx
    exact hat x ((List.perm_insertionSort r t).mem_iff.mp hx)

/-- When the scores are not all equal, the rankings contain an entry with
`Normalized = 1` and `Percentage = 100` (the career attaining the maximum),
and the head of the sorted rankings has `Normalized = 1`. -/
theorem rankings_top_of_spread (scores : List RawCareerScore) (hne : scores ≠ [])
    (hd : minRawScore scores < maxRawScore scores) :
    (∃ e ∈ (normalizeAndRank scores).Rankings, e.Normalized = 1 ∧ e.Percentage = 100) ∧
    ((normalizeAndRank scores).Rankings.head?.map (fun e => e.Normalized) = some 1) := by
  have hrange : scoreRangeOf scores = maxRawScore scores - minRawScore scores := by
    unfold scoreRangeOf
    rw [if_neg (by linarith)]
  obtain ⟨sM, hsM, hMval⟩ := maxRawScore_attained scores hne
  have hnorm1 : (sM.Score - minRawScore scores) / scoreRangeOf scores = 1 := by
    rw [hrange, ← hMval]
    exact div_self (ne_of_gt (by linarith))
  have hentry : normEntry (minRawScore scores) (scoreRangeOf scores) sM ∈
      (normalizeAndRank scores).Rankings := by
    rw [normalizeAndRank_rankings scores hne]
    exact (List.perm_insertionSort normDesc _).mem_iff.mpr
      (List.mem_map_of_mem _ hsM)
  have hN1 : (normEntry (minRawScore scores) (scoreRangeOf scores) sM).Normalized = 1 := by
    show round3 ((sM.Score - minRawScore scores) / scoreRangeOf scores) = 1
    rw [hnorm1, round3_one]
  have hP100 : (normEntry (minRawScore scores) (scoreRangeOf scores) sM).Percentage = 100 := by
    show goRound ((sM.Score - minRawScore scores) / scoreRangeOf scores * 10000) / 100 = 100
    rw [hnorm1]
    rw [show ((1 : ℚ) * 10000) = ((10000 : ℤ) : ℚ) by norm_num, goRound_intCast]
    norm_num
  refine ⟨⟨_, hentry, hN1, hP100⟩, ?_⟩
  cases hr : (normalizeAndRank scores).Rankings with
  | nil => rw [hr] at hentry; cases hentry
  | cons a t =>
    have hsorted : List.Sorted normDesc (a :: t) := by
      rw [← hr, normalizeAndRank_rankings scores hne]
      exact List.sorted_insertionSort normDesc _
    have haN : a.Normalized = 1 := by
      have hle1 : a.Normalized ≤ 1 :=
        (rankings_mem_bounds scores hne a
          (hr ▸ List.mem_cons_self a t)).2.2.1
      rcases List.mem_cons.mp (hr ▸ hentry) with he | he
      · exact he ▸ hN1
      · have := List.rel_of_sorted_cons hsorted _ he
        unfold normDesc at this
        rw [hN1] at this
        linarith
    simp [haN]

/-- C5, counterexample: with scores `0, 1, 3` the career-1 entry stores
`Normalized = 0.333` (3dp rounding), not the exact `(1-0)/(3-0) = 1/3`; and
with scores `0.9996, 1, 0` the stored normalized values of careers 0 and 1
both round to `1`, the stable sort keeps career 0 first, and the top-ranked
entry has `Percentage = 99.96`, not `100`, although the scores differ. -/
theorem C5_cex_rounding_and_top_percentage :
    ((normalizeAndRank [⟨0, 0⟩, ⟨1, 1⟩, ⟨2, 3⟩]).Rankings.map
      (fun e => (e.Career, e.Normalized))) = [(2, 1), (1, 333/1000), (0, 0)] ∧
    (333/1000 : ℚ) ≠ (1 - 0) / (3 - 0) ∧
    ((normalizeAndRank [⟨0, 9996/10000⟩, ⟨1, 1⟩, ⟨2, 0⟩]).Rankings.map
      (fun e => (e.Career, e.Percentage))) = [(0, 9996/100), (1, 100), (2, 0)] ∧
    ((9996 : ℚ)/10000 ≠ 1) ∧ ((9996 : ℚ)/100 ≠ 100) := by
  refine ⟨?_, by norm_num, ?_, by norm_num, by norm_num⟩ <;>
    norm_num [normalizeAndRank, normEntry, minRawScore, maxRawScore, scoreRangeOf,
      round3, goRound, normDesc, List.insertionSort, List.orderedInsert]

theorem min_lt_max_of_spread (scores : List RawCareerScore)
    (s1 : RawCareerScore) (h1 : s1 ∈ scores) (s2 : RawCareerScore)
    (h2 : s2 ∈ scores) (hne12 : s1.Score ≠ s2.Score) :
    minRawScore scores < maxRawScore scores := by
  have a1 := minRawScore_le scores s1 h1
  have a2 := minRawScore_le scores s2 h2
  have b1 := le_maxRawScore scores s1 h1
  have b2 := le_maxRawScore scores s2 h2
  rcases lt_or_le (minRawScore scores) (maxRawScore scores) with h | h
  · exact h
  · have e1 : s1.Score = minRawScore scores := le_antisymm (by linarith) a1
    have e2 : s2.Score = minRawScore scores := le_antisymm (by linarith) a2
    exact absurd (e1.trans e2.symm) hne12

/-- C5, amended: `NormalizeAndRank` assigns each career
`Normalized = round3 ((Score - min)/range)` and
`Percentage = round2 (((Score - min)/range) × 100)` with `range = max - min`
(taken as `1` when `max = min`) — the rankings are a permutation of those
records; every `Percentage` lies in `[0, 100]`; and whenever two scores
differ, some career (the one attaining the max) has `Normalized = 1` and
`Percentage = 100`, and the top-ranked career has `Normalized = 1` (its
`Percentage` can be `99.96` on a 3dp rounding collision, see the
counterexample). -/
theorem C5_normalization_bounds (scores : List RawCareerScore)
    (hne : scores ≠ []) :
    (normalizeAndRank scores).Rankings.Perm
      (scores.map (normEntry (minRawScore scores) (scoreRangeOf scores))) ∧
    (∀ e ∈ (normalizeAndRank scores).Rankings,
      0 ≤ e.Percentage ∧ e.Percentage ≤ 100) ∧
    (∀ s1 ∈ scores, ∀ s2 ∈ scores, s1.Score ≠ s2.Score →
      (∃ e ∈ (normalizeAndRank scores).Rankings,
        e.Normalized = 1 ∧ e.Percentage = 100) ∧
      (normalizeAndRank scores).Rankings.head?.map (fun e => e.Normalized) = some 1) := by
  refine ⟨?_, ?_, ?_⟩
  · rw [normalizeAndRank_rankings scores hne]
    exact List.perm_insertionSort normDesc _
  · intro e he
    have h := rankings_mem_bounds scores hne e he
    exact ⟨h.2.2.2.1, h.2.2.2.2⟩
  · intro s1 h1 s2 h2 hne12
    exact rankings_top_of_spread scores hne
      (min_lt_max_of_spread scores s1 h1 s2 h2 hne12)

/-- C5 witness: the amended statement at scores `0, 1, 3`. -/
theorem C5_normalization_bounds_witness :
    (([⟨0, 0⟩, ⟨1, 1⟩, ⟨2, 3⟩] : List RawCareerScore) ≠ []) ∧
    ((normalizeAndRank [⟨0, 0⟩, ⟨1, 1⟩, ⟨2, 3⟩]).Rankings.head?.map
      (fun e => e.Normalized) = some 1) := by
  refine ⟨List.cons_ne_nil _ _, ?_⟩
  have h := (C5_normalization_bounds [⟨0, 0⟩, ⟨1, 1⟩, ⟨2, 3⟩]
    (List.cons_ne_nil _ _)).2.2
  exact (h ⟨0, 0⟩ (by simp) ⟨1, 1⟩ (by simp) (by norm_num)).2

/-- The 3dp rounding of the confidence is a no-op: the top entry's stored
`Normalized` is `0` or `1`, so the raw ratio already has denominator 1000. -/
theorem confidence_eq_confRaw (scores : List RawCareerScore) (hne : scores ≠ []) :
    (normalizeAndRank scores).Confidence =
      confRaw (normalizeAndRank scores).Rankings := by
  rw [normalizeAndRank_confidence scores hne]
  cases hr : (normalizeAndRank scores).Rankings with
  | nil => rw [show confRaw [] = 0 from rfl, round3_zero]
  | cons a t =>
    cases t with
    | nil => rw [show confRaw [a] = 0 from rfl, round3_zero]
    | cons b t' =>
      show round3 (confRaw (a :: b :: t')) = confRaw (a :: b :: t')
      by_cases hpos : 0 < a.Normalized
      · rw [show confRaw (a :: b :: t') =
            if 0 < a.Normalized then (a.Normalized - b.Normalized) / a.Normalized
            else 0 from rfl, if_pos hpos]
        have haN : a.Normalized = 1 := by
          by_cases hdlt : minRawScore scores < maxRawScore scores
          · have hhead := (rankings_top_of_spread scores hne hdlt).2
            rw [hr] at hhead
            simpa using hhead
          · exfalso
            have hamem : a ∈ (normalizeAndRank scores).Rankings :=
              hr ▸ List.mem_cons_self a (b :: t')
            obtain ⟨⟨s, hs, hes⟩, -⟩ := rankings_mem_bounds scores hne a hamem
            have hminmax : maxRawScore scores = minRawScore scores :=
              le_antisymm (le_of_not_lt hdlt) (minRawScore_le_maxRawScore scores hne)
            have hsc : s.Score = minRawScore scores :=
              le_antisymm (hminmax ▸ le_maxRawScore scores s hs)
                (minRawScore_le scores s hs)
            have : a.Normalized = 0 := by
              rw [hes]
              show round3 ((s.Score - minRawScore scores) / scoreRangeOf scores) = 0
              rw [hsc, sub_self, zero_div, round3_zero]
            rw [this] at hpos
            exact absurd hpos (by norm_num)
        rw [haN, div_one]
        have hbmem : b ∈ (normalizeAndRank scores).Rankings :=
          hr ▸ List.mem_cons_of_mem a (List.mem_cons_self b t')
        obtain ⟨⟨s, hs, hes⟩, -⟩ := rankings_mem_bounds scores hne b hbmem
        obtain ⟨k, hk⟩ := round3_exists_int
          ((s.Score - minRawScore scores) / scoreRangeOf scores)
        have hbk : b.Normalized = (k : ℚ) / 1000 := by
          rw [hes]
          exact hk
        rw [hbk, show (1 : ℚ) - (k : ℚ) / 1000 = ((1000 - k : ℤ) : ℚ) / 1000 by
          push_cast; ring, round3_int_div]
      · rw [show confRaw (a :: b :: t') =
            if 0 < a.Normalized then (a.Normalized - b.Normalized) / a.Normalized
            else 0 from rfl, if_neg hpos, round3_zero]

/-- With exactly one positive score and the rest zero (at least two careers),
the confidence is `1`. -/
theorem confidence_single_positive (scores : List RawCareerScore) (p : ℕ)
    (s : RawCareerScore) (h2 : 2 ≤ scores.length) (hp : scores[p]? = some s)
    (hspos : 0 < s.Score)
    (hz : ∀ (q : ℕ) (s' : RawCareerScore), scores[q]? = some s' → q ≠ p →
      s'.Score = 0) :
    (normalizeAndRank scores).Confidence = 1 := by
  have hne : scores ≠ [] := by
    intro h
    rw [h] at h2
    simp at h2
  have hplen : p < scores.length := by
    by_contra hge
    rw [List.getElem?_eq_none (Nat.le_of_not_lt hge)] at hp
    exact Option.noConfusion hp
  have hpgetd : scores[p] = s := by
    have h2' := List.getElem?_eq_getElem (l := scores) hplen
    rw [hp] at h2'
    exact (Option.some_inj.mp h2').symm
  have hsmem : s ∈ scores := hpgetd ▸ List.getElem_mem hplen
  have helem : ∀ x ∈ scores, x.Score = 0 ∨ x.Score = s.Score := by
    intro x hx
    obtain ⟨q, hq, hqx⟩ := List.mem_iff_getElem.mp hx
    by_cases hqp : q = p
    · right
      subst hqp
      rw [← hqx, hpgetd]
    · left
      rw [← hqx]
      exact hz q scores[q] (List.getElem?_eq_getElem hq) hqp
  have hzero : ∃ x ∈ scores, x.Score = 0 := by
    set q0 : ℕ := if p = 0 then 1 else 0 with hq0
    have hq0len : q0 < scores.length := by
      rw [hq0]
      split_ifs <;> omega
    have hq0p : q0 ≠ p := by
      rw [hq0]
      split_ifs with h
      · omega
      · exact fun hcontra => h hcontra.symm
    exact ⟨scores[q0], List.getElem_mem hq0len,
      hz q0 scores[q0] (List.getElem?_eq_getElem hq0len) hq0p⟩
  obtain ⟨x0, hx0, hx0z⟩ := hzero
  have hmin : minRawScore scores = 0 := by
    obtain ⟨m, hm, hmv⟩ := minRawScore_attained scores hne
    have hle0 : minRawScore scores ≤ 0 := hx0z ▸ minRawScore_le scores x0 hx0
    rcases helem m hm with h0 | hs0
    · rw [hmv, h0]
    · exfalso
      rw [hmv, hs0] at hle0
      linarith
  have hmax : maxRawScore scores = s.Score := by
    obtain ⟨m, hm, hmv⟩ := maxRawScore_attained scores hne
    have hge : s.Score ≤ maxRawScore scores := le_maxRawScore scores s hsmem
    rcases helem m hm with h0 | hs0
    · exfalso
      rw [hmv, h0] at hge
      linarith
    · rw [hmv, hs0]
  have hdlt : minRawScore scores < maxRawScore scores := by
    rw [hmin, hmax]
    exact hspos
  have hrange : scoreRangeOf scores = s.Score := by
    unfold scoreRangeOf
    rw [if_neg (by rw [hmax, hmin]; linarith), hmax, hmin, sub_zero]
  have hNval : ∀ x ∈ scores,
      (normEntry (minRawScore scores) (scoreRangeOf scores) x).Normalized =
        if x.Score = 0 then 0 else 1 := by
    intro x hx
    rcases helem x hx with h0 | hsx
    · rw [if_pos h0]
      show round3 ((x.Score - minRawScore scores) / scoreRangeOf scores) = 0
      rw [h0, hmin, sub_zero, zero_div, round3_zero]
    · rw [if_neg (by rw [hsx]; linarith)]
      show round3 ((x.Score - minRawScore scores) / scoreRangeOf scores) = 1
      rw [hsx, hmin, sub_zero, hrange, div_self (by linarith), round3_one]
  -- at most one entry has Normalized = 1
  have hpairS : scores.Pairwise (fun x y =>
      ¬ ((normEntry (minRawScore scores) (scoreRangeOf scores) x).Normalized = 1 ∧
         (normEntry (minRawScore scores) (scoreRangeOf scores) y).Normalized = 1)) := by
    rw [List.pairwise_iff_getElem]
    intro i j hi hj hij
    rintro ⟨hNi, hNj⟩
    by_cases hip : i = p
    · have hjp : j ≠ p := by omega
      have : scores[j].Score = 0 :=
        hz j scores[j] (List.getElem?_eq_getElem hj) hjp
      rw [hNval scores[j] (List.getElem_mem hj), if_pos this] at hNj
      norm_num at hNj
    · have : scores[i].Score = 0 :=
        hz i scores[i] (List.getElem?_eq_getElem hi) hip
      rw [hNval scores[i] (List.getElem_mem hi), if_pos this] at hNi
      norm_num at hNi
  have hpairR : (normalizeAndRank scores).Rankings.Pairwise
      (fun e f => ¬ (e.Normalized = 1 ∧ f.Normalized = 1)) := by
    rw [normalizeAndRank_rankings scores hne]
    refine pairwise_insertionSort normDesc _ ?_ _ (List.pairwise_map.mpr hpairS)
    intro e f hrel
    rintro ⟨h1, h2⟩
    exact hrel (by unfold normDesc; rw [h1, h2])
  have hlenR : (normalizeAndRank scores).Rankings.length = scores.length := by
    rw [normalizeAndRank_rankings scores hne,
      (List.perm_insertionSort normDesc _).length_eq, List.length_map]
  cases hr : (normalizeAndRank scores).Rankings with
  | nil =>
    rw [hr] at hlenR
    simp at hlenR
    omega
  | cons a t =>
    cases t with
    | nil =>
      rw [hr] at hlenR
      simp at hlenR
      omega
    | cons b t' =>
      have haN : a.Normalized = 1 := by
        have hhead := (rankings_top_of_spread scores hne hdlt).2
        rw [hr] at hhead
        simpa using hhead
      have hbN : b.Normalized = 0 := by
        have hbmem : b ∈ (normalizeAndRank scores).Rankings :=
          hr ▸ List.mem_cons_of_mem a (List.mem_cons_self b t')
        obtain ⟨⟨sb, hsb, hesb⟩, -⟩ := rankings_mem_bounds scores hne b hbmem
        have hb01 : b.Normalized = 0 ∨ b.Normalized = 1 := by
          rw [hesb, hNval sb hsb]
          by_cases h0 : sb.Score = 0
          · exact Or.inl (if_pos h0)
          · exact Or.inr (if_neg h0)
        rcases hb01 with h | h
        · exact h
        · exfalso
          rw [hr] at hpairR
          exact (List.pairwise_cons.mp hpairR).1 b
            (List.mem_cons_self b t') ⟨haN, h⟩
      rw [confidence_eq_confRaw scores hne, hr,
        show confRaw (a :: b :: t') =
          if 0 < a.Normalized then (a.Normalized - b.Normalized) / a.Normalized
          else 0 from rfl, if_pos (by rw [haN]; norm_num), haN, hbN]
      norm_num

/-- C6, counterexample: with exactly one non-zero career score that is
negative (`-1, 0, 0`), the two zero-scored careers normalize to the top and
tie, so the confidence is `0`, not `1.0` as the claim's single-non-zero
clause states. -/
theorem C6_cex_single_nonzero_negative :
    (normalizeAndRank [⟨0, -1⟩, ⟨1, 0⟩, ⟨2, 0⟩]).Confidence = 0 ∧
    ((-1 : ℚ) ≠ 0) ∧ ((0 : ℚ) ≠ 1) := by
  refine ⟨?_, by norm_num, by norm_num⟩
  norm_num [normalizeAndRank, normEntry, minRawScore, maxRawScore, scoreRangeOf,
    round3, goRound, normDesc, confRaw, List.insertionSort, List.orderedInsert]

/-- C6, amended: for every non-empty score list, the returned `Confidence`
equals `(Top.Normalized - Second.Normalized) / Top.Normalized` computed from
the stored rankings (`0` when there are fewer than two careers or the top
normalized value is `0` — the 3dp rounding is a no-op); `Confidence ∈ [0,1]`;
`IsMultiFit` holds iff `Confidence < 0.1`; when the top two ranked entries
have equal normalized scores the confidence is `0` and `IsMultiFit` holds;
and when exactly one career's score is non-zero, that score is positive, and
there are at least two careers, `Confidence = 1` (the counterexample shows
the positivity condition is needed). -/
theorem C6_confidence_properties (scores : List RawCareerScore)
    (hne : scores ≠ []) :
    ((normalizeAndRank scores).Confidence =
      confRaw (normalizeAndRank scores).Rankings) ∧
    (0 ≤ (normalizeAndRank scores).Confidence ∧
      (normalizeAndRank scores).Confidence ≤ 1) ∧
    ((normalizeAndRank scores).IsMultiFit = true ↔
      (normalizeAndRank scores).Confidence < 0.1) ∧
    (∀ a b t, (normalizeAndRank scores).Rankings = a :: b :: t →
      a.Normalized = b.Normalized →
      (normalizeAndRank scores).Confidence = 0 ∧
      (normalizeAndRank scores).IsMultiFit = true) ∧
    (∀ (p : ℕ) (s : RawCareerScore), 2 ≤ scores.length → scores[p]? = some s →
      0 < s.Score →
      (∀ (q : ℕ) (s' : RawCareerScore), scores[q]? = some s' → q ≠ p →
        s'.Score = 0) →
      (normalizeAndRank scores).Confidence = 1) := by
  have hconf := confidence_eq_confRaw scores hne
  have hbounds : 0 ≤ (normalizeAndRank scores).Confidence ∧
      (normalizeAndRank scores).Confidence ≤ 1 := by
    rw [hconf]
    cases hr : (normalizeAndRank scores).Rankings with
    | nil => rw [show confRaw [] = 0 from rfl]; norm_num
    | cons a t =>
      cases t with
      | nil => rw [show confRaw [a] = 0 from rfl]; norm_num
      | cons b t' =>
        rw [show confRaw (a :: b :: t') =
          if 0 < a.Normalized then (a.Normalized - b.Normalized) / a.Normalized
          else 0 from rfl]
        by_cases hpos : 0 < a.Normalized
        · rw [if_pos hpos]
          have hsorted : List.Sorted normDesc (a :: b :: t') := by
            rw [← hr, normalizeAndRank_rankings scores hne]
            exact List.sorted_insertionSort normDesc _
          have hba : b.Normalized ≤ a.Normalized :=
            List.rel_of_sorted_cons hsorted b (List.mem_cons_self b t')
          have hb0 : 0 ≤ b.Normalized :=
            (rankings_mem_bounds scores hne b
              (hr ▸ List.mem_cons_of_mem a (List.mem_cons_self b t'))).2.1
          constructor
          · exact div_nonneg (by linarith) (le_of_lt hpos)
          · rw [div_le_one hpos]
            linarith
        · rw [if_neg hpos]
          norm_num
  refine ⟨hconf, hbounds, ?_, ?_, ?_⟩
  · rw [normalizeAndRank_isMultiFit scores hne]
    exact decide_eq_true_iff
  · intro a b t hr heq
    have hc0 : (normalizeAndRank scores).Confidence = 0 := by
      rw [hconf, hr, show confRaw (a :: b :: t) =
        if 0 < a.Normalized then (a.Normalized - b.Normalized) / a.Normalized
        else 0 from rfl, heq]
      split_ifs <;> simp
    refine ⟨hc0, ?_⟩
    rw [normalizeAndRank_isMultiFit scores hne, hc0]
    norm_num
  · intro p s h2 hp hspos hz
    exact confidence_single_positive scores p s h2 hp hspos hz

/-- C6 witness: the amended statement at scores `5, 0, 0` — one positive
score, the rest zero — gives confidence exactly `1`. -/
theorem C6_confidence_properties_witness :
    (2 ≤ ([⟨0, 5⟩, ⟨1, 0⟩, ⟨2, 0⟩] : List RawCareerScore).length) ∧
    ((0 : ℚ) < 5) ∧
    (normalizeAndRank [⟨0, 5⟩, ⟨1, 0⟩, ⟨2, 0⟩]).Confidence = 1 := by
  refine ⟨by norm_num, by norm_num, ?_⟩
  refine (C6_confidence_properties [⟨0, 5⟩, ⟨1, 0⟩, ⟨2, 0⟩]
    (List.cons_ne_nil _ _)).2.2.2.2 0 ⟨0, 5⟩ (by norm_num) rfl (by norm_num) ?_
  intro q s' hq hqp
  have hqlt : q < 3 := by
    by_contra hge
    rw [List.getElem?_eq_none (by simpa using Nat.le_of_not_lt hge)] at hq
    exact Option.noConfusion hq
  interval_cases q
  · exact absurd rfl hqp
  · simp only [List.getElem?_cons_succ, List.getElem?_cons_zero] at hq
    rw [← Option.some_inj.mp hq]
  · simp only [List.getElem?_cons_succ, List.getElem?_cons_zero] at hq
    rw [← Option.some_inj.mp hq]

/-- C7: the ranking is a deterministic function of the adjusted scores (it is
a pure function); the rankings are sorted descending by `Normalized`; and any
two entries with exactly equal `Normalized` values appear in their original
Career enum order.  The input is a career-indexed score list (entry `i`
holds career `i`), and `scores.length < 12` records the modelling boundary:
Go's `sort.Slice` runs its stable insertion sort on slices shorter than 12
elements, which covers every career list the engine ever builds (at most 9
careers). -/
theorem C7_ranking_deterministic_stable (scores : List RawCareerScore)
    (hcar : ∀ i (hi : i < scores.length), (scores.get ⟨i, hi⟩).Career = i)
    (hlen : scores.length < 12) :
    List.Sorted normDesc (normalizeAndRank scores).Rankings ∧
    (normalizeAndRank scores).Rankings.Pairwise
      (fun a b => a.Normalized = b.Normalized → a.Career < b.Career) := by
  by_cases hne : scores = []
  · rw [hne]
    exact ⟨List.sorted_nil, List.Pairwise.nil⟩
  · rw [normalizeAndRank_rankings scores hne]
    have hpairC : scores.Pairwise (fun x y => x.Career < y.Career) := by
      rw [List.pairwise_iff_getElem]
      intro i j hi hj hij
      have h1 := hcar i hi
      have h2 := hcar j hj
      rw [List.get_eq_getElem] at h1 h2
      rw [h1, h2]
      exact hij
    constructor
    · exact List.sorted_insertionSort normDesc _
    · refine pairwise_insertionSort normDesc _ ?_ _ ?_
      · intro a b hrel heq
        exfalso
        exact hrel (by unfold normDesc; rw [heq])
      · exact List.pairwise_map.mpr (hpairC.imp (fun h => fun _ => h))

/-- C7 witness: scores `1, 2, 1` for careers `0, 1, 2` — careers 0 and 2 tie
on `Normalized = 0` and appear in enum order after career 1. -/
theorem C7_ranking_deterministic_stable_witness :
    (∀ i (hi : i < ([⟨0, 1⟩, ⟨1, 2⟩, ⟨2, 1⟩] : List RawCareerScore).length),
      (([⟨0, 1⟩, ⟨1, 2⟩, ⟨2, 1⟩] : List RawCareerScore).get ⟨i, hi⟩).Career = i) ∧
    (([⟨0, 1⟩, ⟨1, 2⟩, ⟨2, 1⟩] : List RawCareerScore).length < 12) ∧
    List.Sorted normDesc (normalizeAndRank [⟨0, 1⟩, ⟨1, 2⟩, ⟨2, 1⟩]).Rankings ∧
    ((normalizeAndRank [⟨0, 1⟩, ⟨1, 2⟩, ⟨2, 1⟩]).Rankings.map
      (fun e => (e.Career, e.Normalized))) = [(1, 1), (0, 0), (2, 0)] := by
  have h := C7_ranking_deterministic_stable [⟨0, 1⟩, ⟨1, 2⟩, ⟨2, 1⟩]
    (by decide) (by decide)
  refine ⟨by decide, by decide, h.1, ?_⟩
  norm_num [normalizeAndRank, normEntry, minRawScore, maxRawScore, scoreRangeOf,
    round3, goRound, normDesc, List.insertionSort, List.orderedInsert]

/- Helper lemmas for `GenerateExplanation`. -/

theorem posFold_mono_init (l : List ℚ) : ∀ {a b : ℚ}, a ≤ b →
    posFold l a ≤ posFold l b := by
  induction l with
  | nil => intro a b h; exact h
  | cons c t ih =>
    intro a b h
    unfold posFold at ih ⊢
    simp only [List.foldl_cons]
    apply ih
    split_ifs <;> linarith

theorem le_posFold (l : List ℚ) (a : ℚ) : a ≤ posFold l a := by
  induction l generalizing a with
  | nil => exact le_refl a
  | cons c t ih =>
    unfold posFold
    simp only [List.foldl_cons]
    have h1 : a ≤ if 0 < c then a + c else a := by
      split_ifs <;> linarith
    exact le_trans h1 (ih _)

theorem posFold_ge_elem (l : List ℚ) (a x : ℚ) (hx : x ∈ l) (hxpos : 0 < x) :
    a + x ≤ posFold l a := by
  induction l generalizing a with
  | nil => cases hx
  | cons c t ih =>
    unfold posFold
    simp only [List.foldl_cons]
    rcases List.mem_cons.mp hx with h | h
    · subst h
      rw [if_pos hxpos]
      exact le_posFold t (a + x)
    · have h1 : a + x ≤ (if 0 < c then a + c else a) + x := by
        split_ifs <;> linarith
      exact le_trans h1 (ih _ h)

theorem totalPositive_pos (career : Career) (profile : UserProfile) (i : Fin 9)
    (h : 0 < profile.Features i * getCareerWeights career i) :
    0 < totalPositive career profile := by
  have hmem : profile.Features i * getCareerWeights career i ∈
      (List.finRange 9).map (fun j => profile.Features j * getCareerWeights career j) :=
    List.mem_map_of_mem _ (List.mem_finRange i)
  have := posFold_ge_elem _ 0 _ hmem h
  unfold totalPositive
  linarith

theorem round3_pos_imp {q : ℚ} (h : 0 < round3 q) : 0 < q := by
  by_contra hle
  push_neg at hle
  have := round3_mono hle
  rw [round3_zero] at this
  linarith

/-- Every element of `contribWithPct` agrees with a base record on the data
fields, and its `Percentage` is the rounded share when the totals are
positive, else `0`. -/
theorem mem_contribWithPct_spec (career : Career) (profile : UserProfile)
    (f : FeatureContribution) (hf : f ∈ contribWithPct career profile) :
    ∃ b ∈ contribBase career profile,
      f.Feature = b.Feature ∧ f.UserValue = b.UserValue ∧
      f.CareerWeight = b.CareerWeight ∧ f.Contribution = b.Contribution ∧
      f.Percentage = (if 0 < totalPositive career profile ∧ 0 < b.Contribution
        then goRound (b.Contribution / totalPositive career profile * 10000) / 100
        else 0) := by
  have hbase0 : ∀ b ∈ contribBase career profile, b.Percentage = 0 := by
    intro b hb
    obtain ⟨i, _, hbi⟩ := List.mem_map.mp hb
    rw [← hbi]
  unfold contribWithPct at hf
  by_cases htp : 0 < totalPositive career profile
  · rw [if_pos htp] at hf
    obtain ⟨b, hb, hfb⟩ := List.mem_map.mp hf
    by_cases hbc : 0 < b.Contribution
    · rw [if_pos hbc] at hfb
      exact ⟨b, hb, by rw [← hfb], by rw [← hfb], by rw [← hfb], by rw [← hfb],
        by rw [← hfb]; exact (if_pos ⟨htp, hbc⟩).symm⟩
    · rw [if_neg hbc] at hfb
      refine ⟨b, hb, by rw [← hfb], by rw [← hfb], by rw [← hfb], by rw [← hfb], ?_⟩
      rw [← hfb, hbase0 b hb, if_neg (fun hand => hbc hand.2)]
  · rw [if_neg htp] at hf
    refine ⟨f, hf, rfl, rfl, rfl, rfl, ?_⟩
    rw [hbase0 f hf, if_neg (fun hand => htp hand.1)]

/-- C8, counterexample: with `AcademicStrength = 0.0001` and the other
features `0`, the exact IT-career contribution of Academic Strength is
`0.0001 × 0.4 = 0.00004`, but every `Contribution` stored in `TopFactors` is
`0` — the stored contributions are rounded to 3 decimal places, so the list
does not contain the claimed value `UserValue[i] × Weight[career][i]`. -/
theorem C8_cex_contribution_rounded :
    ((generateExplanation CareerIT ⟨fun i => if i = 0 then 0.0001 else 0⟩ []).TopFactors.map
      (fun f => f.Contribution)) = List.replicate 9 0 ∧
    ((0.0001 : ℚ) * 0.4 ≠ 0) := by
  have f20 : (((2 : Fin 9)) = 0) = False := eq_false (by decide)
  have f30 : (((3 : Fin 9)) = 0) = False := eq_false (by decide)
  have f40 : (((4 : Fin 9)) = 0) = False := eq_false (by decide)
  have f50 : (((5 : Fin 9)) = 0) = False := eq_false (by decide)
  have f60 : (((6 : Fin 9)) = 0) = False := eq_false (by decide)
  have f70 : (((7 : Fin 9)) = 0) = False := eq_false (by decide)
  have f80 : (((8 : Fin 9)) = 0) = False := eq_false (by decide)
  refine ⟨?_, by norm_num⟩
  norm_num [generateExplanation, contribWithPct, contribBase, totalPositive, posFold,
    getCareerWeights, CareerWeightMatrix, NumCareers, CareerIT, List.finRange,
    round3, goRound, absContribDesc, List.insertionSort, List.orderedInsert,
    List.replicate, Fin.succ_ne_zero, f20, f30, f40, f50, f60, f70, f80]

/-- C8, amended: `GenerateExplanation` returns all 9 feature records; each
holds the feature's user value and signed contribution
`UserValue[i] × Weight[career][i]` rounded to 3 decimal places; each record
whose stored contribution is positive has
`Percentage = round2(Contribution / totalPositive × 100)` where
`totalPositive` sums the positive exact contributions; non-positive
contributions get no percentage; and the list is sorted by absolute stored
contribution descending (stable insertion sort).  The penalties and career
are returned unchanged. -/
theorem C8_explanation_contributions (career : Career) (profile : UserProfile)
    (penalties : List RiskPenalty) :
    ((generateExplanation career profile penalties).TopFactors.length = 9) ∧
    (∀ f ∈ (generateExplanation career profile penalties).TopFactors,
      ∃ i : Fin 9, f.Feature = FeatureNames i ∧
        f.UserValue = round3 (profile.Features i) ∧
        f.CareerWeight = getCareerWeights career i ∧
        f.Contribution = round3 (profile.Features i * getCareerWeights career i)) ∧
    ((generateExplanation career profile penalties).TopFactors.Pairwise absContribDesc) ∧
    (∀ f ∈ (generateExplanation career profile penalties).TopFactors,
      f.Contribution ≤ 0 → f.Percentage = 0) ∧
    (∀ f ∈ (generateExplanation career profile penalties).TopFactors,
      0 < f.Contribution →
        f.Percentage =
          goRound (f.Contribution / totalPositive career profile * 10000) / 100) ∧
    ((generateExplanation career profile penalties).Career = career) ∧
    ((generateExplanation career profile penalties).RiskPenalties = penalties) := by
  have hmem : ∀ f ∈ (generateExplanation career profile penalties).TopFactors,
      f ∈ contribWithPct career profile := by
    intro f hf
    exact (List.perm_insertionSort absContribDesc _).mem_iff.mp hf
  refine ⟨?_, ?_, ?_, ?_, ?_, rfl, rfl⟩
  · show (List.insertionSort absContribDesc (contribWithPct career profile)).length = 9
    rw [(List.perm_insertionSort absContribDesc _).length_eq]
    unfold contribWithPct contribBase
    dsimp only
    split_ifs <;> simp
  · intro f hf
    obtain ⟨b, hb, hF, hU, hW, hC, _⟩ :=
      mem_contribWithPct_spec career profile f (hmem f hf)
    obtain ⟨i, _, hbi⟩ := List.mem_map.mp hb
    refine ⟨i, ?_, ?_, ?_, ?_⟩ <;> rw [← hbi] at hF hU hW hC <;> assumption
  · exact List.sorted_insertionSort absContribDesc _
  · intro f hf hcle
    obtain ⟨b, hb, _, _, _, hC, hP⟩ :=
      mem_contribWithPct_spec career profile f (hmem f hf)
    rw [hP, if_neg]
    rintro ⟨-, hbc⟩
    rw [← hC] at hbc
    linarith
  · intro f hf hcpos
    obtain ⟨b, hb, _, _, _, hC, hP⟩ :=
      mem_contribWithPct_spec career profile f (hmem f hf)
    obtain ⟨i, _, hbi⟩ := List.mem_map.mp hb
    have hbc : 0 < b.Contribution := hC ▸ hcpos
    have hexact : 0 < profile.Features i * getCareerWeights career i := by
      apply round3_pos_imp
      have : b.Contribution = round3 (profile.Features i * getCareerWeights career i) := by
        rw [← hbi]
      rw [← this]
      exact hbc
    rw [hP, if_pos ⟨totalPositive_pos career profile i hexact, hbc⟩, ← hC]

/-- C2 witness: the amended boundary rules evaluated on the profile whose
four risk features are all `0.3` (risk score exactly `3.0`, level `"Low"`). -/
theorem C2_risk_level_boundaries_witness :
    (computeRisk ⟨fun _ => 0.3⟩).Score = 3 ∧
    (computeRisk ⟨fun _ => 0.3⟩).Level = "Low" := by
  have h3 : (computeRisk ⟨fun _ => 0.3⟩).Score = 3 := by
    norm_num [computeRisk, goRound, UserProfile.incomeUrgency,
      UserProfile.financialPressure, UserProfile.riskTolerance,
      UserProfile.careerInstability, FeatIncomeUrgency, FeatFinancialPressure,
      FeatRiskTolerance, FeatCareerInstability]
  exact ⟨h3, (C2_risk_level_boundaries ⟨fun _ => 0.3⟩).1 h3⟩

/-- C8 witness: the amended statement evaluated at the zero profile and the
IT career — nine records, and the Academic Strength record (contribution
`0`) receives no percentage. -/
theorem C8_explanation_contributions_witness :
    ((generateExplanation CareerIT ⟨fun _ => 0⟩ []).TopFactors.length = 9) ∧
    ((⟨"Academic Strength", 0, 0.4, 0, 0⟩ : FeatureContribution) ∈
      (generateExplanation CareerIT ⟨fun _ => 0⟩ []).TopFactors) ∧
    ((0 : ℚ) ≤ 0) ∧
    (⟨"Academic Strength", 0, 0.4, 0, 0⟩ : FeatureContribution).Percentage = 0 := by
  have hmem : (⟨"Academic Strength", 0, 0.4, 0, 0⟩ : FeatureContribution) ∈
      (generateExplanation CareerIT ⟨fun _ => 0⟩ []).TopFactors := by
    norm_num [generateExplanation, contribWithPct, contribBase, totalPositive,
      posFold, getCareerWeights, CareerWeightMatrix, NumCareers, CareerIT,
      List.finRange, round3, goRound, absContribDesc, List.insertionSort,
      List.orderedInsert, FeatureNames]
  exact ⟨(C8_explanation_contributions CareerIT ⟨fun _ => 0⟩ []).1, hmem, le_refl 0,
    (C8_explanation_contributions CareerIT ⟨fun _ => 0⟩ []).2.2.2.1 _ hmem (le_refl 0)⟩

end CareerManifest
